import Mathlib

/-!
# TinyScript core: shallow embedding and verification

This file embeds the core of the TinyScript interpreter — the value domain
(`src/vm/value.rs`), activation frames (`src/vm/frame.rs`), the instruction set
and the fetch–decode–execute loop (`src/vm/mod.rs`), and the per-function code
generator (`src/compiler/function.rs`) — as executable Lean definitions, and
proves properties of the instruction semantics and of the compiler's jump
back-patching.

Modelling conventions:
* Rust panics (`panic!`, `unreachable!`, `expect`, failed `assert!`, indexing
  out of bounds, integer division by zero) are modelled as `Except.error` with
  the panic's message where one exists.
* `i32` payloads are modelled as `Int` and `usize` as `Nat`; where the source
  performs an `as` cast whose wrapping behaviour matters, the cast is modelled
  explicitly (`i32ofNat`, and the `i32 as usize` sign extension in
  `JumpIfFalse`).
* `f32` payloads are modelled as exact rationals (`ℚ`).  None of the verified
  properties concern rounding, NaN or infinities; they only concern which
  variant pairings an operation accepts.
* `Rc<RefCell<Vec<Value>>>` / `Rc<RefCell<HashMap<..>>>` collections are
  modelled by their contents (value semantics).  The verified properties are
  local to a single reference, so aliasing is not observable in them.
* `HashMap<String, _>` is modelled as an association list built only by
  `insertEntry` (which replaces an existing binding), so keys are unique and
  the insertion-order list determines the map.
* The `Vec` operand stack grows at its end; the Lean model keeps the top of
  the stack at the *head* of a `List`, so Rust's `last`/`pop`/`push` become
  head operations.
-/

namespace TinyScript

/-- Result ordering for the comparisons in `value.rs`. -/
inductive Ord3 where
  | lt | eq | gt
deriving DecidableEq, Repr

/-- Comparison of two integers (Rust `i32::partial_cmp`, always defined). -/
def intCmp (a b : Int) : Ord3 :=
  if a < b then .lt else if a = b then .eq else .gt

/-- Comparison of two (model) floats (`f32::partial_cmp` on non-NaN values;
NaN is outside this model, see the header). -/
def ratCmp (a b : ℚ) : Ord3 :=
  if a < b then .lt else if a = b then .eq else .gt

/-- `Value` — the runtime value domain of `src/vm/value.rs`.

`Class` holds the member-name → template map, `Object` the live field map and
`Dictionary` the string-keyed map, each modelled as an association list. -/
inductive Value where
  | null
  | integer (n : Int)
  | float (q : ℚ)
  | bool (b : Bool)
  | string (s : String)
  | array (items : List Value)
  | dictionary (entries : List (String × Value))
  | classV (template : List (String × Value))
  | object (fields : List (String × Value))
  | functionRef (name : String)

/-- Association-list lookup, i.e. `HashMap::get`. -/
def lookupEntry (key : String) : List (String × Value) → Option Value
  | [] => none
  | (k, v) :: rest => if k = key then some v else lookupEntry key rest

/-- Association-list insert, i.e. `HashMap::insert` (replaces an existing
binding for the key). -/
def insertEntry (key : String) (value : Value) : List (String × Value) → List (String × Value)
  | [] => [(key, value)]
  | (k, v) :: rest => if k = key then (k, value) :: rest else (k, v) :: insertEntry key value rest

mutual
/-- Structural equality on values — Rust's `#[derive(PartialEq)]` on `Value`
(`Rc<RefCell<_>>` compares contents).  The map-carrying variants compare as
maps; since model maps have unique keys, equal length plus lookup agreement is
`HashMap` equality. -/
def valueEq : Value → Value → Bool
  | .null, .null => true
  | .integer a, .integer b => a == b
  | .float a, .float b => a == b
  | .bool a, .bool b => a == b
  | .string a, .string b => a == b
  | .array xs, .array ys => valueListEq xs ys
  | .dictionary xs, .dictionary ys => entriesEq xs ys
  | .classV xs, .classV ys => entriesEq xs ys
  | .object xs, .object ys => entriesEq xs ys
  | .functionRef a, .functionRef b => a == b
  | _, _ => false

/-- Element-wise equality of value lists (`Vec<Value>` equality). -/
def valueListEq : List Value → List Value → Bool
  | [], [] => true
  | x :: xs, y :: ys => valueEq x y && valueListEq xs ys
  | _, _ => false

/-- Pair-wise equality of entry lists; with the unique-key invariant and equal
lengths this coincides with `HashMap` equality up to key order, which the
verified properties never distinguish. -/
def entriesEq : List (String × Value) → List (String × Value) → Bool
  | [], [] => true
  | (k, v) :: xs, (k', v') :: ys => k == k' && valueEq v v' && entriesEq xs ys
  | _, _ => false
end

/-- `Display for Value` (`value.rs`): the rendering used by `to_string()`.
The float and debug (`todo for {:?}`) renderings are abstracted since no
verified property inspects them. -/
def valueToString : Value → String
  | .null => "null"
  | .integer n => toString n
  | .float q => toString q
  | .bool b => if b then "true" else "false"
  | .string s => s
  | .array _ => "Array"
  | .functionRef name => name
  | v => "todo for " ++ (match v with
      | .dictionary _ => "Dictionary"
      | .classV _ => "Class"
      | .object _ => "Object"
      | _ => "")

/-- `impl PartialOrd for Value` (`value.rs`): defined only on
`Integer/Integer` and `Float/Float`; every other pairing hits
`unreachable!("can not subtract values")`. -/
def valuePartialCmp : Value → Value → Except String (Option Ord3)
  | .integer v1, .integer v2 => .ok (some (intCmp v1 v2))
  | .float v1, .float v2 => .ok (some (ratCmp v1 v2))
  | _, _ => .error "can not subtract values"

/-- `impl Add for Value` (`value.rs`). -/
def valueAdd : Value → Value → Except String Value
  | .integer v1, .integer v2 => .ok (.integer (v1 + v2))
  | .integer v1, .float v2 => .ok (.float (v1 + v2))
  | .integer v1, .string v2 => .ok (.string (toString v1 ++ v2))
  | .float v1, .integer v2 => .ok (.float (v1 + v2))
  | .float v1, .float v2 => .ok (.float (v1 + v2))
  | .string v1, .string v2 => .ok (.string (v1 ++ v2))
  | .string v1, .bool v2 => .ok (.string (v1 ++ valueToString (.bool v2)))
  | .string v1, .integer v2 => .ok (.string (v1 ++ toString v2))
  | .string v1, .float v2 => .ok (.string (v1 ++ valueToString (.float v2)))
  | .array v1, .array v2 => .ok (.array (v1 ++ v2))
  | .bool v1, .bool v2 => .ok (.bool (v1 && v2))
  | _, _ => .error "can not add values"

/-- `impl Sub for Value` (`value.rs`). -/
def valueSub : Value → Value → Except String Value
  | .integer v1, .integer v2 => .ok (.integer (v1 - v2))
  | .integer v1, .float v2 => .ok (.float (v1 - v2))
  | .float v1, .integer v2 => .ok (.float (v1 - v2))
  | .float v1, .float v2 => .ok (.float (v1 - v2))
  | _, _ => .error "can not subtract values"

/-- `impl Mul for Value` (`value.rs`). -/
def valueMul : Value → Value → Except String Value
  | .integer v1, .integer v2 => .ok (.integer (v1 * v2))
  | .integer v1, .float v2 => .ok (.float (v1 * v2))
  | .float v1, .integer v2 => .ok (.float (v1 * v2))
  | .float v1, .float v2 => .ok (.float (v1 * v2))
  | _, _ => .error "can not multiply values"

/-- `impl Div for Value` (`value.rs`).  Integer division truncates toward zero
(`Int.tdiv`); `i32` division by zero panics in Rust and is an error here. -/
def valueDiv : Value → Value → Except String Value
  | .integer v1, .integer v2 =>
      if v2 = 0 then .error "attempt to divide by zero"
      else .ok (.integer (Int.tdiv v1 v2))
  | .integer v1, .float v2 => .ok (.float (v1 / v2))
  | .float v1, .integer v2 => .ok (.float (v1 / v2))
  | .float v1, .float v2 => .ok (.float (v1 / v2))
  | _, _ => .error "can not divide values"

/-- `Frame` — the activation record of `src/vm/frame.rs`.  The operand stack
`data` keeps its top at the head of the list (Rust pushes/pops at the end of
the `Vec`). -/
structure Frame where
  name : String
  returnPosition : Option Nat
  /-- the `variables` field of the Rust struct (`variables` is reserved in Lean) -/
  vars : List Value
  data : List Value

/-- `Frame::new`.  `frame.rs` stores the argument vector directly as the
variable array; the call sites in `vm/mod.rs` hand it an optional argument
list, absent meaning no arguments. -/
def Frame.new (name : String) (returnPosition : Option Nat)
    (args : Option (List Value)) : Frame :=
  { name := name, returnPosition := returnPosition
    vars := args.getD [], data := [] }

/-- `Frame::push_value_to_stack`. -/
def Frame.pushValueToStack (fr : Frame) (value : Value) : Frame :=
  { fr with data := value :: fr.data }

/-- `Frame::pop_value_from_stack` — panics (`expect`) on an empty stack. -/
def Frame.popValueFromStack (fr : Frame) : Except String (Value × Frame) :=
  match fr.data with
  | [] => .error "stack should have a value"
  | value :: rest => .ok (value, { fr with data := rest })

/-- `Frame::get_top_value_on_stack` — a clone of the top of the stack. -/
def Frame.getTopValueOnStack (fr : Frame) : Except String Value :=
  match fr.data with
  | [] => .error "stack should have a value"
  | value :: _ => .ok value

/-- `Frame::pop_2_values_from_stack` — pops `rhs`, then `lhs`, and returns
`(lhs, rhs)`. -/
def Frame.pop2ValuesFromStack (fr : Frame) : Except String ((Value × Value) × Frame) := do
  let (rhs, fr) ← fr.popValueFromStack
  let (lhs, fr) ← fr.popValueFromStack
  .ok ((lhs, rhs), fr)

/-- `Frame::pop_values_from_stack` — pops `count` values, collecting them in
pop order (top of the stack first). -/
def Frame.popValuesFromStack (count : Nat) (fr : Frame) : Except String (List Value × Frame) :=
  match count with
  | 0 => .ok ([], fr)
  | n + 1 => do
      let (value, fr) ← fr.popValueFromStack
      let (values, fr) ← Frame.popValuesFromStack n fr
      .ok (value :: values, fr)

/-- `Frame::push_value_to_variable_slot` — grows the variable array with
`Null` padding when assigning past its current length. -/
def Frame.pushValueToVariableSlot (fr : Frame) (slot : Nat) (value : Value) : Frame :=
  let vars :=
    if fr.vars.length ≤ slot then
      fr.vars ++ List.replicate (slot + 1 - fr.vars.length) .null
    else fr.vars
  { fr with vars := vars.set slot value }

/-- `Frame::move_from_stack_to_variable_slot` — pop then store. -/
def Frame.moveFromStackToVariableSlot (fr : Frame) (slot : Nat) : Except String Frame := do
  let (value, fr) ← fr.popValueFromStack
  .ok (fr.pushValueToVariableSlot slot value)

/-- `Frame::copy_from_stack_to_variable_slot` — peek then store. -/
def Frame.copyFromStackToVariableSlot (fr : Frame) (slot : Nat) : Except String Frame := do
  let value ← fr.getTopValueOnStack
  .ok (fr.pushValueToVariableSlot slot value)

/-- `Frame::get_variable_or_panic`. -/
def Frame.getVariableOrPanic (fr : Frame) (slot : Nat) : Except String Value :=
  match fr.vars[slot]? with
  | some value => .ok value
  | none => .error "variable slot should exist"

/-- `Frame::copy_from_variable_slot_to_stack`. -/
def Frame.copyFromVariableSlotToStack (fr : Frame) (slot : Nat) : Except String Frame := do
  let value ← fr.getVariableOrPanic slot
  .ok (fr.pushValueToStack value)

/-- `Instruction` — the opcode set matched by the interpreter loop in
`src/vm/mod.rs`, together with the two opcodes `GetKeyValue`/`SetKeyValue`
that the code generator in `src/compiler/function.rs` emits.  `Return` is
spelled `ret` (a reserved word in Lean). -/
inductive Instruction where
  | assert
  | print
  | call (argLen : Nat)
  | ret (hasReturnValue : Bool)
  | createObject
  | jumpForward (delta : Nat)
  | jumpBackward (delta : Nat)
  | jumpIfFalse (delta : Int)
  | stackPush (variant : Value)
  | moveToLocalVariable (index : Nat)
  | copyToLocalVariable (index : Nat)
  | loadLocalVariable (index : Nat)
  | loadGlobal (index : Nat)
  | arrayLength
  | arrayAdd
  | dictionaryAdd
  | getCollectionItemByKey
  | setCollectionItemByKey
  | add
  | sub
  | multiply
  | divide
  | pow
  | equal
  | notEqual
  | lessThan
  | lessThanOrEqual
  | greaterThan
  | greaterThanOrEqual
  | halt (msg : String)
  | getKeyValue
  | setKeyValue

/-- `Program` — as consumed by `VM::new` in `src/vm/mod.rs`: the flat
instruction vector, the symbol table from qualified names to instruction
offsets, and the global value table. -/
structure Program where
  instructions : List Instruction
  symbols : List (String × Nat)
  globals : List Value

/-- Symbol-table lookup (`HashMap<String, usize>::get`). -/
def lookupSymbol (key : String) : List (String × Nat) → Option Nat
  | [] => none
  | (k, v) :: rest => if k = key then some v else lookupSymbol key rest

/-- The mutable state of `VM` during `exec`: instruction vector, symbol
table, frame stack (current frame at the head), globals and the instruction
pointer. -/
structure VMState where
  instructions : List Instruction
  functions : List (String × Nat)
  frames : List Frame
  globals : List Value
  ip : Nat

/-- Result of executing one instruction of the loop in `VM::exec`:
continue with a new state, break out of the loop (a `Halt`), or return a
final value (a `Return` from the root frame). -/
inductive StepOutcome where
  | next (s : VMState)
  | brk (s : VMState)
  | done (v : Value)

/-- `n as usize` for an `i32` value `n`: sign-extension to 64 bits. -/
def i32asUsize (n : Int) : Nat := (n % (2 ^ 64 : Int)).toNat

/-- One iteration of the fetch–decode–execute loop of `VM::exec`
(`src/vm/mod.rs`): fetch `instructions[ip]` and execute it.  Rust panics
(including `usize` underflow on backward jumps and out-of-bounds indexing)
are `Except.error`. -/
def step (s : VMState) : Except String StepOutcome := do
  let instruction ←
    match s.instructions[s.ip]? with
    | some i => Except.ok i
    | none => Except.error ("instruction #" ++ toString s.ip ++ " should exist")
  let (frame, restFrames) ←
    match s.frames with
    | fr :: rest => Except.ok (fr, rest)
    | [] => Except.error "frame should be on the stack"
  match instruction with
  | .assert => do
      let (output, frame) ← frame.popValueFromStack
      match output with
      | .bool true => .ok (.next { s with frames := frame :: restFrames, ip := s.ip + 1 })
      | .bool false => .error "assertion failed"
      | _ => .error ("unable to assert " ++ valueToString output)
  | .print => do
      let (_, frame) ← frame.popValueFromStack
      .ok (.next { s with frames := frame :: restFrames, ip := s.ip + 1 })
  | .call argLen => do
      let (args, frame) ← Frame.popValuesFromStack argLen frame
      let args := args.reverse
      let (nameValue, frame) ← frame.popValueFromStack
      let name := valueToString nameValue
      let functionPosition ←
        match lookupSymbol name s.functions with
        | some p => Except.ok p
        | none => Except.error "function should exist"
      let functionName := name ++ "[" ++ toString s.frames.length ++ "]"
      let a := if args.isEmpty then none else some args
      let nextIp := s.ip + 1
      let newFrame := Frame.new functionName (some nextIp) a
      .ok (.next { s with frames := newFrame :: frame :: restFrames, ip := functionPosition })
  | .ret hasReturnValue => do
      let (returnValue, frame) ←
        if hasReturnValue then frame.popValueFromStack
        else Except.ok (Value.null, frame)
      match frame.returnPosition with
      | none => .ok (.done returnValue)
      | some pos => do
          match restFrames with
          | [] => .error "frame should be on the stack"
          | caller :: rest =>
              let caller := if hasReturnValue then caller.pushValueToStack returnValue else caller
              .ok (.next { s with frames := caller :: rest, ip := pos })
  | .createObject => do
      let (classValue, frame) ← frame.popValueFromStack
      match classValue with
      | .classV template =>
          .ok (.next { s with
            frames := (frame.pushValueToStack (.object template)) :: restFrames
            ip := s.ip + 1 })
      | _ => .error (valueToString classValue ++ " is not a class")
  | .jumpForward delta => .ok (.next { s with ip := s.ip + delta })
  | .jumpBackward delta =>
      if delta ≤ s.ip then .ok (.next { s with ip := s.ip - delta })
      else .error "attempt to subtract with overflow"
  | .jumpIfFalse delta => do
      let (b, frame) ← frame.popValueFromStack
      let s := { s with frames := frame :: restFrames }
      match b with
      | .bool false =>
          if delta > 0 then .ok (.next { s with ip := s.ip + delta.toNat })
          else
            -- `self.ip -= *delta as usize` with `delta ≤ 0`
            if i32asUsize delta ≤ s.ip then .ok (.next { s with ip := s.ip - i32asUsize delta })
            else .error "attempt to subtract with overflow"
      | _ => .ok (.next { s with ip := s.ip + 1 })
  | .stackPush variant =>
      .ok (.next { s with frames := (frame.pushValueToStack variant) :: restFrames, ip := s.ip + 1 })
  | .moveToLocalVariable index => do
      let frame ← frame.moveFromStackToVariableSlot index
      .ok (.next { s with frames := frame :: restFrames, ip := s.ip + 1 })
  | .copyToLocalVariable index => do
      let frame ← frame.copyFromStackToVariableSlot index
      .ok (.next { s with frames := frame :: restFrames, ip := s.ip + 1 })
  | .loadLocalVariable index => do
      let frame ← frame.copyFromVariableSlotToStack index
      .ok (.next { s with frames := frame :: restFrames, ip := s.ip + 1 })
  | .loadGlobal index => do
      let value ←
        match s.globals[index]? with
        | some v => Except.ok v
        | none => Except.error ("global '" ++ toString index ++ "'should exist")
      .ok (.next { s with frames := (frame.pushValueToStack value) :: restFrames, ip := s.ip + 1 })
  | .arrayLength => do
      let (arrayValue, frame) ← frame.popValueFromStack
      match arrayValue with
      | .array val =>
          .ok (.next { s with
            frames := (frame.pushValueToStack (.integer val.length)) :: restFrames
            ip := s.ip + 1 })
      | _ => .error ("can not get length on non-array " ++ valueToString arrayValue)
  | .arrayAdd => do
      let (value, frame) ← frame.popValueFromStack
      let (arrayValue, frame) ← frame.popValueFromStack
      -- `if let Value::Array(..)` with no else: a non-array is silently dropped
      let frame :=
        match arrayValue with
        | .array v => frame.pushValueToStack (.array (v ++ [value]))
        | _ => frame
      .ok (.next { s with frames := frame :: restFrames, ip := s.ip + 1 })
  | .dictionaryAdd => do
      let (value, frame) ← frame.popValueFromStack
      let (key, frame) ← frame.popValueFromStack
      let (dict, frame) ← frame.popValueFromStack
      let frame :=
        match dict with
        | .dictionary v => frame.pushValueToStack (.dictionary (insertEntry (valueToString key) value v))
        | _ => frame
      .ok (.next { s with frames := frame :: restFrames, ip := s.ip + 1 })
  | .getCollectionItemByKey => do
      let (key, frame) ← frame.popValueFromStack
      let (collection, frame) ← frame.popValueFromStack
      match collection with
      | .array items =>
          match key with
          | .integer index =>
              match items[i32asUsize index]? with
              | some arrayValue =>
                  .ok (.next { s with
                    frames := (frame.pushValueToStack arrayValue) :: restFrames
                    ip := s.ip + 1 })
              | none => .error ("array index " ++ toString index ++ " should exist")
          | _ => .error ("can not get index on non-integer " ++ valueToString key)
      | .dictionary items =>
          match key with
          | .string index =>
              match lookupEntry index items with
              | some v2 =>
                  .ok (.next { s with
                    frames := (frame.pushValueToStack v2) :: restFrames
                    ip := s.ip + 1 })
              | none => .error ("key '" ++ index ++ "' should exist in dictionary")
          | _ => .error ("can not get index on non-string " ++ valueToString key)
      | _ => .error ("can not get index on non-collection " ++ valueToString key)
  | .setCollectionItemByKey => do
      let (key, frame) ← frame.popValueFromStack
      let (value, frame) ← frame.popValueFromStack
      let (collection, frame) ← frame.popValueFromStack
      match collection with
      | .array items =>
          match key with
          | .integer index =>
              if i32asUsize index < items.length then
                .ok (.next { s with
                  frames := (frame.pushValueToStack (.array (items.set (i32asUsize index) value))) :: restFrames
                  ip := s.ip + 1 })
              else .error "index out of bounds"
          | _ => .error ("can not get index on non-integer " ++ valueToString key)
      | .dictionary items =>
          match key with
          | .string index =>
              .ok (.next { s with
                frames := (frame.pushValueToStack (.dictionary (insertEntry index value items))) :: restFrames
                ip := s.ip + 1 })
          | _ => .error ("can not get index on non-string " ++ valueToString key)
      | _ => .error "can not get index on non-collection"
  | .add => do
      let ((lhs, rhs), frame) ← frame.pop2ValuesFromStack
      let result ← valueAdd lhs rhs
      .ok (.next { s with frames := (frame.pushValueToStack result) :: restFrames, ip := s.ip + 1 })
  | .sub => do
      let ((lhs, rhs), frame) ← frame.pop2ValuesFromStack
      let result ← valueSub lhs rhs
      .ok (.next { s with frames := (frame.pushValueToStack result) :: restFrames, ip := s.ip + 1 })
  | .multiply => do
      let ((lhs, rhs), frame) ← frame.pop2ValuesFromStack
      let result ← valueMul lhs rhs
      .ok (.next { s with frames := (frame.pushValueToStack result) :: restFrames, ip := s.ip + 1 })
  | .divide => do
      let ((lhs, rhs), frame) ← frame.pop2ValuesFromStack
      let result ← valueDiv lhs rhs
      .ok (.next { s with frames := (frame.pushValueToStack result) :: restFrames, ip := s.ip + 1 })
  | .pow =>
      -- `Instruction::Pow` in `vm/mod.rs` is `// todo: implement`:
      -- it only advances the instruction pointer.
      .ok (.next { s with ip := s.ip + 1 })
  | .equal => do
      let ((lhs, rhs), frame) ← frame.pop2ValuesFromStack
      .ok (.next { s with
        frames := (frame.pushValueToStack (.bool (valueEq lhs rhs))) :: restFrames
        ip := s.ip + 1 })
  | .notEqual => do
      let ((lhs, rhs), frame) ← frame.pop2ValuesFromStack
      .ok (.next { s with
        frames := (frame.pushValueToStack (.bool (!(valueEq lhs rhs)))) :: restFrames
        ip := s.ip + 1 })
  | .lessThan => do
      let ((lhs, rhs), frame) ← frame.pop2ValuesFromStack
      let o ← valuePartialCmp lhs rhs
      .ok (.next { s with
        frames := (frame.pushValueToStack (.bool (o = some .lt))) :: restFrames
        ip := s.ip + 1 })
  | .lessThanOrEqual => do
      let ((lhs, rhs), frame) ← frame.pop2ValuesFromStack
      let o ← valuePartialCmp lhs rhs
      .ok (.next { s with
        frames := (frame.pushValueToStack (.bool (o = some .lt ∨ o = some .eq))) :: restFrames
        ip := s.ip + 1 })
  | .greaterThan => do
      let ((lhs, rhs), frame) ← frame.pop2ValuesFromStack
      let o ← valuePartialCmp lhs rhs
      .ok (.next { s with
        frames := (frame.pushValueToStack (.bool (o = some .gt))) :: restFrames
        ip := s.ip + 1 })
  | .greaterThanOrEqual => do
      let ((lhs, rhs), frame) ← frame.pop2ValuesFromStack
      let o ← valuePartialCmp lhs rhs
      .ok (.next { s with
        frames := (frame.pushValueToStack (.bool (o = some .gt ∨ o = some .eq))) :: restFrames
        ip := s.ip + 1 })
  | .halt _msg => .ok (.brk s)
  | .getKeyValue => .error "unknown instruction"
  | .setKeyValue => .error "unknown instruction"

/-- The interpreter loop of `VM::exec`, fuelled: after each `next` outcome
it performs the loop's end-of-script check (`ip == instructions.len()`
breaks); breaking out of the loop pops the current frame's stack top as the
program result. -/
def vmLoop : Nat → VMState → Except String Value
  | 0, _ => .error "out of fuel"
  | fuel + 1, s => do
      match ← step s with
      | .done v => .ok v
      | .brk s' => breakResult s'
      | .next s' =>
          if s'.ip = s'.instructions.length then breakResult s'
          else vmLoop fuel s'
where
  /-- `Ok(frame.pop_value_from_stack())` after the loop breaks. -/
  breakResult (s : VMState) : Except String Value :=
    match s.frames with
    | [] => .error "frame should be on the stack"
    | fr :: _ => (fr.popValueFromStack).map (·.1)

/-- `VM::exec` (`src/vm/mod.rs`): resolve the entry symbol (leaving `ip`
at `0` when it is absent), return `Null` immediately when the program has no
instructions, otherwise push the root frame named `"main"` and run the
loop.  `fuel` bounds the number of loop iterations (the source loops
unboundedly). -/
def exec (fuel : Nat) (program : Program) (entry : String)
    (parameters : Option (List Value)) : Except String Value :=
  let ip₀ :=
    match lookupSymbol entry program.symbols with
    | some pos => pos
    | none => 0
  if program.instructions.length = 0 then .ok .null
  else
    vmLoop fuel
      { instructions := program.instructions
        functions := program.symbols
        frames := [Frame.new "main" none parameters]
        globals := program.globals
        ip := ip₀ }

/-! ## Compiler (`src/compiler/function.rs`, `token.rs`, `variable.rs`) -/

/-- `Token` — the AST node type of `src/compiler/token.rs`.  Some
constructor names are adjusted because their Rust names are reserved words in
Lean: `Import` ↦ `importFile`, `Class` ↦ `classDecl`,
`Constructor` ↦ `constructorDecl`, `Variable` ↦ `varDecl`,
`Return` ↦ `ret`. -/
inductive Token where
  | comment (s : String)
  | assert (e : Token)
  | importFile (file : String)
  | print (e : Token)
  | function (name : String) (params : List Token) (stmts : List Token)
  | anonFunction (params : List Token) (stmts : List Token)
  | classDecl (name : String) (items : List Token)
  | constructorDecl (params : List Token) (stmts : List Token)
  | chain (start : Token) (items : List Token)
  | identifier (name : String)
  | varDecl (name : Token) (value : Token)
  | assign (left : Token) (right : Token)
  | null
  | integer (v : Int)
  | float (v : ℚ)
  | bool (v : Bool)
  | string (v : String)
  | array (elements : List Token)
  | object (className : Token) (params : List Token)
  | dictionary (pairs : List Token)
  | keyValuePair (k : String) (v : Token)
  | arrayIndex (id : Token) (index : Token)
  | eq (a b : Token)
  | ne (a b : Token)
  | lt (a b : Token)
  | le (a b : Token)
  | gt (a b : Token)
  | ge (a b : Token)
  | add (a b : Token)
  | sub (a b : Token)
  | mul (a b : Token)
  | div (a b : Token)
  | pow (a b : Token)
  | ifElse (expr : Token) (thenBody : List Token) (elseBody : Option (List Token))
  | whileLoop (expr : Token) (stmts : List Token)
  | forEach (item : Token) (arr : Token) (stmts : List Token)
  | forI (start : Token) (stop : Token) (step : Token) (stmts : List Token)
  | call (name : Token) (args : List Token)
  | ret (expr : Token)

/-- `impl ToString for Token` (`token.rs`). -/
def Token.toStr : Token → String
  | .function name _ _ => name
  | .identifier name => name
  | .string s => s
  | _ => ""

/-- `Variable` (`src/compiler/variable.rs`). -/
structure Variable where
  name : String
  index : Nat
  value : Value

/-- `Function` — the per-function compiler state of
`src/compiler/function.rs`.  The `variables` map (name → `Variable`) is the
`vars` list here (keys are unique because `add_variable` rejects
duplicates; the slot index is the map's size at insertion). -/
structure Function where
  name : String
  className : String
  parameters : List Token
  statements : List Token
  instructions : List Instruction
  anonymousFunctions : List Token
  vars : List Variable
  globals : List (String × Value)
  globalLookup : List (String × Nat)

/-- `self.instructions.push(i)`. -/
def pushIns (f : Function) (i : Instruction) : Function :=
  { f with instructions := f.instructions ++ [i] }

/-- `self.instructions[p] = i` — the back-patch write. -/
def setIns (f : Function) (p : Nat) (i : Instruction) : Function :=
  { f with instructions := f.instructions.set p i }

/-- Lookup in the `variables` map. -/
def findVariable (name : String) : List Variable → Option Variable
  | [] => none
  | v :: rest => if v.name = name then some v else findVariable name rest

/-- `Function::get_variable` — panics when the name is unknown. -/
def getVariable (f : Function) (name : String) : Except String Variable :=
  match findVariable name f.vars with
  | some v => .ok v
  | none => .error ("variable '" ++ name ++ "' does not exist")

/-- `Function::add_variable` — panics on a duplicate; the new slot index is
the current size of the map. -/
def addVariable (f : Function) (name : String) (value : Value) : Except String Function :=
  match findVariable name f.vars with
  | some _ => .error ("variable '" ++ name ++ "' already exists")
  | none => .ok { f with vars := f.vars ++ [⟨name, f.vars.length, value⟩] }

/-- `i32` truncation of a `usize` (`jump_to_pos as i32` in the back-patch
code). -/
def i32ofNat (n : Nat) : Int :=
  let m : Nat := n % 2 ^ 32
  if m < 2 ^ 31 then (m : Int) else (m : Int) - 2 ^ 32

mutual

/-- `Function::compile_statements` — compile a slice of statements in
order. -/
def compileStatements (statements : List Token) (f : Function) : Except String Function :=
  match statements with
  | [] => .ok f
  | stmt :: rest => do
      let f ← compileStatement stmt f
      compileStatements rest f
termination_by (sizeOf statements, 9)

/-- `Function::compile_statement` — dispatch one statement; the catch-all
arm is `todo!` in the source. -/
def compileStatement (statement : Token) (f : Function) : Except String Function :=
  match statement with
  | .assert exp => compileAssert exp f
  | .print exp => compilePrint exp f
  | .call name args => compileCall name args f
  | .varDecl left right => compileVariable left right f
  | .assign left right => compileAssignment left right f
  | .ifElse expr thenBody elseBody => compileIfelse expr thenBody elseBody f
  | .whileLoop expr statements => compileWhileloop expr statements f
  | .forEach item arr stmts => compileForeach item arr stmts f
  | .ret expr => compileReturn expr f
  | .forI start stop step stmts => compileForloop start stop step stmts f
  | .chain start chainItems => compileChain start chainItems f
  | .comment _ => .ok f
  | _ => .error "statement: todo"
termination_by (sizeOf statement, 9)

/-- `Function::compile_chain` — compile the start of the chain, then each
chain item. -/
def compileChain (start : Token) (chainItems : List Token) (f : Function) :
    Except String Function := do
  let f ← compileExpression start f
  compileChainItems start.toStr chainItems f
termination_by (1 + sizeOf start + sizeOf chainItems, 5)

/-- The `for item in chain` loop inside `Function::compile_chain`.
`startStr` is `start.to_string()`, used to reload the chain root as the
receiver of a method call. -/
def compileChainItems (startStr : String) (chainItems : List Token) (f : Function) :
    Except String Function :=
  match chainItems with
  | [] => .ok f
  | item :: rest => do
      let f ←
        match item with
        | .identifier name =>
            .ok (pushIns (pushIns f (.stackPush (.string name))) .getKeyValue)
        | .call name args => do
            let f := pushIns (pushIns f (.stackPush (.string name.toStr))) .getKeyValue
            let variableRecord ← getVariable f startStr
            let f := pushIns f (.loadLocalVariable variableRecord.index)
            let f ← compileExpressionList args f
            .ok (pushIns f (.call (args.length + 1)))
        | _ => .error "chain item is not a variable or index"
      compileChainItems startStr rest f
termination_by (sizeOf chainItems, 9)

/-- `Function::compile_assert`. -/
def compileAssert (exp : Token) (f : Function) : Except String Function := do
  let f ← compileExpression exp f
  .ok (pushIns f .assert)

/-- `Function::compile_variable` — declare, compile the initialiser, store. -/
def compileVariable (name : Token) (value : Token) (f : Function) :
    Except String Function := do
  let f ← addVariable f name.toStr .null
  let slotVar ← getVariable f name.toStr
  let f ← compileExpression value f
  .ok (pushIns f (.moveToLocalVariable slotVar.index))

/-- `Function::compile_assignment` — to an identifier or an indexed
target. -/
def compileAssignment (left : Token) (right : Token) (f : Function) :
    Except String Function :=
  match left with
  | .identifier name => do
      let slotVar ← getVariable f name
      let f ← compileExpression right f
      .ok (pushIns f (.moveToLocalVariable slotVar.index))
  | .arrayIndex name index => do
      let slotVar ← getVariable f name.toStr
      let f := pushIns f (.loadLocalVariable slotVar.index)
      let f ← compileExpression right f
      let f ← compileExpression index f
      let f := pushIns f .setKeyValue
      .ok (pushIns f (.moveToLocalVariable slotVar.index))
  | _ => .error "name is not an identifier or index"

/-- `Function::compile_forloop` — the C-style `for (init; cond; step)`
loop with its back-patched exit jump. -/
def compileForloop (start : Token) (stop : Token) (step : Token)
    (block : List Token) (f : Function) : Except String Function := do
  let f ← compileStatement start f
  let startOfLoop := f.instructions.length
  let f ← compileExpression stop f
  let jumpNotTrue := f.instructions.length
  let f := pushIns f (.halt "no jump-not-true provided")
  let f ← compileStatements block f
  let f ← compileStatement step f
  let f := pushIns f (.jumpBackward (f.instructions.length - startOfLoop))
  let jumpToPos := f.instructions.length - jumpNotTrue
  .ok (setIns f jumpNotTrue (.jumpIfFalse (i32ofNat jumpToPos)))
termination_by (1 + sizeOf start + sizeOf stop + sizeOf step + sizeOf block, 5)

/-- `Function::compile_whileloop`. -/
def compileWhileloop (expr : Token) (block : List Token) (f : Function) :
    Except String Function := do
  let startInsPtr := f.instructions.length
  let f ← compileExpression expr f
  let jumpNotTrue := f.instructions.length
  let f := pushIns f (.halt "no jump-not-true provided")
  let f ← compileStatements block f
  let f := pushIns f (.jumpBackward (f.instructions.length - startInsPtr))
  let jumpToPos := f.instructions.length - jumpNotTrue
  .ok (setIns f jumpNotTrue (.jumpIfFalse (i32ofNat jumpToPos)))
termination_by (1 + sizeOf expr + sizeOf block, 5)

/-- `Function::compile_foreach` — the entire body of this function is
commented out in the source, so it emits nothing and changes no state. -/
def compileForeach (_item : Token) (_arr : Token) (_block : List Token)
    (f : Function) : Except String Function :=
  .ok f

/-- `Function::compile_ifelse` — condition, reserved `JumpIfFalse`, then
branch, reserved forward jump, back-patches. -/
def compileIfelse (expr : Token) (thenBody : List Token)
    (elseBody : Option (List Token)) (f : Function) : Except String Function := do
  let f ← compileExpression expr f
  let jumpToElse := f.instructions.length
  let f := pushIns f (.halt "no where to jump to")
  let f ← compileStatements thenBody f
  let jumpToEnd := f.instructions.length
  let f := pushIns f (.halt "can not jump tot end")
  let jumpToPos := f.instructions.length - jumpToElse
  let f := setIns f jumpToElse (.jumpIfFalse (i32ofNat jumpToPos))
  let f ←
    match elseBody with
    | none => .ok f
    | some els => compileStatements els f
  .ok (setIns f jumpToEnd (.jumpForward (f.instructions.length - jumpToEnd)))
termination_by (1 + sizeOf expr + sizeOf thenBody + sizeOf elseBody, 5)

/-- `Function::compile_new_object` — `new C(args…)`. -/
def compileNewObject (className : String) (params : List Token) (f : Function) :
    Except String Function := do
  let globalId ←
    match lookupSymbol className f.globalLookup with
    | some id => Except.ok id
    | none => Except.error "unwrap on None"
  let f := pushIns f (.loadGlobal globalId)
  let f := pushIns f .createObject
  let tmpName := "tmp" ++ toString f.instructions.length
  let f ← addVariable f tmpName .null
  let objVarRecord ← getVariable f tmpName
  let objVar := objVarRecord.index
  let f := pushIns f (.copyToLocalVariable objVar)
  let f := pushIns f (.stackPush (.string "constructor"))
  let f := pushIns f .getKeyValue
  let f := pushIns f (.loadLocalVariable objVar)
  let f ← compileExpressionList params f
  let f := pushIns f (.call (params.length + 1))
  .ok (pushIns f (.loadLocalVariable objVar))
termination_by (sizeOf params, 10)

/-- `Function::compile_expression` — dispatch one expression; the
catch-all arm is `panic!("unhandled token")` in the source. -/
def compileExpression (token : Token) (f : Function) : Except String Function :=
  match token with
  | .anonFunction params stmts =>
      let funcName := "func" ++ toString f.instructions.length
      let f := { f with
        anonymousFunctions := f.anonymousFunctions ++ [Token.function funcName params stmts] }
      .ok (pushIns f (.stackPush (.functionRef funcName)))
  | .null => .ok (pushIns f (.stackPush .null))
  | .integer v => .ok (pushIns f (.stackPush (.integer v)))
  | .float v => .ok (pushIns f (.stackPush (.float v)))
  | .bool v => .ok (pushIns f (.stackPush (.bool v)))
  | .string v => .ok (pushIns f (.stackPush (.string v)))
  | .identifier id => do
      let idx ← getVariable f id
      .ok (pushIns f (.loadLocalVariable idx.index))
  | .array elements => do
      let f := pushIns f (.stackPush (.array []))
      compileArrayElements elements f
  | .dictionary pairs => do
      let f := pushIns f (.stackPush (.dictionary []))
      compileDictPairs pairs f
  | .object className params => compileNewObject className.toStr params f
  | .arrayIndex id index => do
      let idx ← getVariable f id.toStr
      let f := pushIns f (.loadLocalVariable idx.index)
      let f ← compileExpression index f
      .ok (pushIns f .getKeyValue)
  | .call name args => compileCall name args f
  | .eq t1 t2 => do
      let f ← compileExpression t1 f
      let f ← compileExpression t2 f
      .ok (pushIns f .equal)
  | .ne t1 t2 => do
      let f ← compileExpression t1 f
      let f ← compileExpression t2 f
      .ok (pushIns f .notEqual)
  | .add t1 t2 => do
      let f ← compileExpression t1 f
      let f ← compileExpression t2 f
      .ok (pushIns f .add)
  | .sub t1 t2 => do
      let f ← compileExpression t1 f
      let f ← compileExpression t2 f
      .ok (pushIns f .sub)
  | .mul t1 t2 => do
      let f ← compileExpression t1 f
      let f ← compileExpression t2 f
      .ok (pushIns f .multiply)
  | .div t1 t2 => do
      let f ← compileExpression t1 f
      let f ← compileExpression t2 f
      .ok (pushIns f .divide)
  | .pow t1 t2 => do
      let f ← compileExpression t1 f
      let f ← compileExpression t2 f
      .ok (pushIns f .pow)
  | .lt a b => do
      let f ← compileExpression a f
      let f ← compileExpression b f
      .ok (pushIns f .lessThan)
  | .le a b => do
      let f ← compileExpression a f
      let f ← compileExpression b f
      .ok (pushIns f .lessThanOrEqual)
  | .gt a b => do
      let f ← compileExpression a f
      let f ← compileExpression b f
      .ok (pushIns f .greaterThan)
  | .ge a b => do
      let f ← compileExpression a f
      let f ← compileExpression b f
      .ok (pushIns f .greaterThanOrEqual)
  | .chain init chainItems => compileChain init chainItems f
  | _ => .error "unhandled token"
termination_by (sizeOf token, 9)

/-- The `for element in elements` loop of the array-literal case of
`compile_expression`: each element is compiled and appended with
`ArrayAdd`. -/
def compileArrayElements (elements : List Token) (f : Function) :
    Except String Function :=
  match elements with
  | [] => .ok f
  | e :: rest => do
      let f ← compileExpression e f
      compileArrayElements rest (pushIns f .arrayAdd)
termination_by (sizeOf elements, 9)

/-- The `for pair in pairs` loop of the dictionary-literal case of
`compile_expression` (`if let KeyValuePair` skips other shapes). -/
def compileDictPairs (pairs : List Token) (f : Function) :
    Except String Function :=
  match pairs with
  | [] => .ok f
  | .keyValuePair k value :: rest => do
      let f := pushIns f (.stackPush (.string k))
      let f ← compileExpression value f
      compileDictPairs rest (pushIns f .dictionaryAdd)
  | _ :: rest => compileDictPairs rest f
termination_by (sizeOf pairs, 9)

/-- An argument loop `for arg in args { self.compile_expression(arg) }`,
shared by `compile_call`, `compile_new_object` and `compile_chain`. -/
def compileExpressionList (args : List Token) (f : Function) :
    Except String Function :=
  match args with
  | [] => .ok f
  | a :: rest => do
      let f ← compileExpression a f
      compileExpressionList rest f
termination_by (sizeOf args, 9)

/-- `Function::compile_print`. -/
def compilePrint (exp : Token) (f : Function) : Except String Function := do
  let f ← compileExpression exp f
  .ok (pushIns f .print)

/-- `Function::compile_call` — a locally bound callee is loaded directly;
otherwise the call is treated as a method on `this` (slot 0) and the
receiver becomes an extra argument. -/
def compileCall (name : Token) (args : List Token) (f : Function) :
    Except String Function := do
  let (f, argLen) ←
    match findVariable name.toStr f.vars with
    | some v => Except.ok (pushIns f (.loadLocalVariable v.index), args.length)
    | none =>
        let f := pushIns f (.loadLocalVariable 0)
        let f := pushIns f (.stackPush (.string name.toStr))
        let f := pushIns f .getKeyValue
        let f := pushIns f (.loadLocalVariable 0)
        Except.ok (f, args.length + 1)
  let f ← compileExpressionList args f
  .ok (pushIns f (.call argLen))
termination_by (1 + sizeOf name + sizeOf args, 5)

/-- `Function::compile_return`. -/
def compileReturn (expr : Token) (f : Function) : Except String Function := do
  let f ← compileExpression expr f
  .ok (pushIns f (.ret true))

end

/-- `Ext f g`: the instruction list of `g` extends that of `f` — the
emitted-code-only-grows invariant of the single-pass code generator, needed
to reason about back-patch positions. -/
def Ext (f g : Function) : Prop :=
  ∃ t, g.instructions = f.instructions ++ t

/-! ## Helper lemmas -/

theorem Ext.rfl (f : Function) : Ext f f := ⟨[], by simp⟩

theorem Ext.trans {f g h : Function} (h1 : Ext f g) (h2 : Ext g h) : Ext f h := by
  obtain ⟨t1, e1⟩ := h1
  obtain ⟨t2, e2⟩ := h2
  exact ⟨t1 ++ t2, by rw [e2, e1, List.append_assoc]⟩

theorem Ext.push (f : Function) (i : Instruction) : Ext f (pushIns f i) := ⟨[i], by rfl⟩

theorem Ext.push_right {f g : Function} (i : Instruction) (h : Ext f g) :
    Ext f (pushIns g i) := h.trans (Ext.push g i)

theorem Ext.length_le {f g : Function} (h : Ext f g) :
    f.instructions.length ≤ g.instructions.length := by
  obtain ⟨t, e⟩ := h
  simp [e]

/-- Setting an element past a prefix leaves the prefix intact. -/
theorem set_append_of_le {α : Type} (a b : List α) (p : Nat) (x : α) (h : a.length ≤ p) :
    (a ++ b).set p x = a ++ b.set (p - a.length) x := by
  induction a generalizing p with
  | nil => simp
  | cons hd tl ih =>
      cases p with
      | zero => simp at h
      | succ q =>
          simp only [List.length_cons] at h
          simp only [List.cons_append, List.set_cons_succ, List.length_cons]
          rw [ih q (by omega)]
          have hq : q + 1 - (tl.length + 1) = q - tl.length := by omega
          rw [hq]

theorem Ext.set_right {f g : Function} {p : Nat} (i : Instruction) (h : Ext f g)
    (hp : f.instructions.length ≤ p) : Ext f (setIns g p i) := by
  obtain ⟨t, e⟩ := h
  refine ⟨t.set (p - f.instructions.length) i, ?_⟩
  simp only [setIns, e]
  exact set_append_of_le _ _ _ _ hp

theorem Ext.of_instructions_eq {f g : Function} (h : g.instructions = f.instructions) :
    Ext f g := ⟨[], by simp [h]⟩

/-- `i32ofNat` is the identity below `2^31` (no wrap). -/
theorem i32ofNat_small (n : Nat) (h : n < 2 ^ 31) : i32ofNat n = (n : Int) := by
  unfold i32ofNat
  have hm : n % 2 ^ 32 = n := Nat.mod_eq_of_lt (by omega)
  simp only [hm]
  rw [if_pos (by exact_mod_cast h)]

/-- Setting the element right at the boundary of a prefix replaces the head
of the suffix. -/
theorem set_at_boundary {α : Type} (a : List α) (x : α) (tail : List α) (y : α)
    (p : Nat) (hp : p = a.length) :
    (a ++ x :: tail).set p y = a ++ y :: tail := by
  subst hp
  rw [set_append_of_le a (x :: tail) a.length y le_rfl]
  simp

/-- Inverting a successful `Except` bind. -/
theorem bind_eq_ok {α β : Type} {x : Except String α} {g : α → Except String β} {b : β} :
    (x >>= g) = .ok b ↔ ∃ a, x = .ok a ∧ g a = .ok b := by
  cases x <;> simp [Bind.bind, Except.bind]

/-- `add_variable` never touches the instruction vector. -/
theorem addVariable_instructions {f g : Function} {n : String} {v : Value}
    (h : addVariable f n v = .ok g) : g.instructions = f.instructions := by
  unfold addVariable at h
  cases hfv : findVariable n f.vars <;> simp only [hfv] at h
  · obtain rfl := (Except.ok.injEq _ _).mp h
    rfl
  · exact Except.noConfusion h

/-- `i32 as usize` is the identity on small non-negative values. -/
theorem i32asUsize_ofNat (n : Nat) (h : n < 2 ^ 31) : i32asUsize (n : Int) = n := by
  unfold i32asUsize
  rw [Int.emod_eq_of_lt (by positivity) (by exact_mod_cast lt_trans h (by norm_num))]
  exact Int.toNat_ofNat n

/-- Looking up a key right after inserting it yields the inserted value. -/
theorem lookupEntry_insertEntry (k : String) (v : Value) (e : List (String × Value)) :
    lookupEntry k (insertEntry k v e) = some v := by
  induction e with
  | nil => simp [insertEntry, lookupEntry]
  | cons hd tl ih =>
      obtain ⟨k', v'⟩ := hd
      by_cases hk : k' = k <;> simp [insertEntry, lookupEntry, hk, ih]

/-! ## The code generator only appends

Every `compile_*` function only appends to `self.instructions` (the two
back-patching functions overwrite positions reserved during the same call,
which lie past the instructions present on entry).  This is the invariant
that makes back-patch positions meaningful. -/

set_option maxHeartbeats 1600000 in
mutual

theorem compileExpression_ext (token : Token) (f g : Function)
    (h : compileExpression token f = .ok g) : Ext f g := by
  match token with
  | .anonFunction params stmts =>
      simp only [compileExpression] at h
      obtain rfl := (Except.ok.injEq _ _).mp h
      exact Ext.push_right _ ⟨[], by simp⟩
  | .null =>
      simp only [compileExpression] at h
      obtain rfl := (Except.ok.injEq _ _).mp h
      exact Ext.push f _
  | .integer v =>
      simp only [compileExpression] at h
      obtain rfl := (Except.ok.injEq _ _).mp h
      exact Ext.push f _
  | .float v =>
      simp only [compileExpression] at h
      obtain rfl := (Except.ok.injEq _ _).mp h
      exact Ext.push f _
  | .bool v =>
      simp only [compileExpression] at h
      obtain rfl := (Except.ok.injEq _ _).mp h
      exact Ext.push f _
  | .string v =>
      simp only [compileExpression] at h
      obtain rfl := (Except.ok.injEq _ _).mp h
      exact Ext.push f _
  | .identifier id =>
      simp only [compileExpression] at h
      rw [bind_eq_ok] at h
      obtain ⟨idx, _, h2⟩ := h
      obtain rfl := (Except.ok.injEq _ _).mp h2
      exact Ext.push f _
  | .array elements =>
      simp only [compileExpression] at h
      exact (Ext.push f _).trans (compileArrayElements_ext elements _ g h)
  | .dictionary pairs =>
      simp only [compileExpression] at h
      exact (Ext.push f _).trans (compileDictPairs_ext pairs _ g h)
  | .object className params =>
      simp only [compileExpression] at h
      exact compileNewObject_ext className.toStr params f g h
  | .arrayIndex id index =>
      simp only [compileExpression] at h
      rw [bind_eq_ok] at h
      obtain ⟨idx, _, h2⟩ := h
      rw [bind_eq_ok] at h2
      obtain ⟨f2, h2a, h2b⟩ := h2
      obtain rfl := (Except.ok.injEq _ _).mp h2b
      exact Ext.push_right _ ((Ext.push f _).trans (compileExpression_ext index _ f2 h2a))
  | .call name args =>
      simp only [compileExpression] at h
      exact compileCall_ext name args f g h
  | .eq t1 t2 =>
      simp only [compileExpression] at h
      rw [bind_eq_ok] at h
      obtain ⟨f1, h1, h2⟩ := h
      rw [bind_eq_ok] at h2
      obtain ⟨f2, h2a, h2b⟩ := h2
      obtain rfl := (Except.ok.injEq _ _).mp h2b
      exact Ext.push_right _
        ((compileExpression_ext t1 f f1 h1).trans (compileExpression_ext t2 f1 f2 h2a))
  | .ne t1 t2 =>
      simp only [compileExpression] at h
      rw [bind_eq_ok] at h
      obtain ⟨f1, h1, h2⟩ := h
      rw [bind_eq_ok] at h2
      obtain ⟨f2, h2a, h2b⟩ := h2
      obtain rfl := (Except.ok.injEq _ _).mp h2b
      exact Ext.push_right _
        ((compileExpression_ext t1 f f1 h1).trans (compileExpression_ext t2 f1 f2 h2a))
  | .add t1 t2 =>
      simp only [compileExpression] at h
      rw [bind_eq_ok] at h
      obtain ⟨f1, h1, h2⟩ := h
      rw [bind_eq_ok] at h2
      obtain ⟨f2, h2a, h2b⟩ := h2
      obtain rfl := (Except.ok.injEq _ _).mp h2b
      exact Ext.push_right _
        ((compileExpression_ext t1 f f1 h1).trans (compileExpression_ext t2 f1 f2 h2a))
  | .sub t1 t2 =>
      simp only [compileExpression] at h
      rw [bind_eq_ok] at h
      obtain ⟨f1, h1, h2⟩ := h
      rw [bind_eq_ok] at h2
      obtain ⟨f2, h2a, h2b⟩ := h2
      obtain rfl := (Except.ok.injEq _ _).mp h2b
      exact Ext.push_right _
        ((compileExpression_ext t1 f f1 h1).trans (compileExpression_ext t2 f1 f2 h2a))
  | .mul t1 t2 =>
      simp only [compileExpression] at h
      rw [bind_eq_ok] at h
      obtain ⟨f1, h1, h2⟩ := h
      rw [bind_eq_ok] at h2
      obtain ⟨f2, h2a, h2b⟩ := h2
      obtain rfl := (Except.ok.injEq _ _).mp h2b
      exact Ext.push_right _
        ((compileExpression_ext t1 f f1 h1).trans (compileExpression_ext t2 f1 f2 h2a))
  | .div t1 t2 =>
      simp only [compileExpression] at h
      rw [bind_eq_ok] at h
      obtain ⟨f1, h1, h2⟩ := h
      rw [bind_eq_ok] at h2
      obtain ⟨f2, h2a, h2b⟩ := h2
      obtain rfl := (Except.ok.injEq _ _).mp h2b
      exact Ext.push_right _
        ((compileExpression_ext t1 f f1 h1).trans (compileExpression_ext t2 f1 f2 h2a))
  | .pow t1 t2 =>
      simp only [compileExpression] at h
      rw [bind_eq_ok] at h
      obtain ⟨f1, h1, h2⟩ := h
      rw [bind_eq_ok] at h2
      obtain ⟨f2, h2a, h2b⟩ := h2
      obtain rfl := (Except.ok.injEq _ _).mp h2b
      exact Ext.push_right _
        ((compileExpression_ext t1 f f1 h1).trans (compileExpression_ext t2 f1 f2 h2a))
  | .lt a b =>
      simp only [compileExpression] at h
      rw [bind_eq_ok] at h
      obtain ⟨f1, h1, h2⟩ := h
      rw [bind_eq_ok] at h2
      obtain ⟨f2, h2a, h2b⟩ := h2
      obtain rfl := (Except.ok.injEq _ _).mp h2b
      exact Ext.push_right _
        ((compileExpression_ext a f f1 h1).trans (compileExpression_ext b f1 f2 h2a))
  | .le a b =>
      simp only [compileExpression] at h
      rw [bind_eq_ok] at h
      obtain ⟨f1, h1, h2⟩ := h
      rw [bind_eq_ok] at h2
      obtain ⟨f2, h2a, h2b⟩ := h2
      obtain rfl := (Except.ok.injEq _ _).mp h2b
      exact Ext.push_right _
        ((compileExpression_ext a f f1 h1).trans (compileExpression_ext b f1 f2 h2a))
  | .gt a b =>
      simp only [compileExpression] at h
      rw [bind_eq_ok] at h
      obtain ⟨f1, h1, h2⟩ := h
      rw [bind_eq_ok] at h2
      obtain ⟨f2, h2a, h2b⟩ := h2
      obtain rfl := (Except.ok.injEq _ _).mp h2b
      exact Ext.push_right _
        ((compileExpression_ext a f f1 h1).trans (compileExpression_ext b f1 f2 h2a))
  | .ge a b =>
      simp only [compileExpression] at h
      rw [bind_eq_ok] at h
      obtain ⟨f1, h1, h2⟩ := h
      rw [bind_eq_ok] at h2
      obtain ⟨f2, h2a, h2b⟩ := h2
      obtain rfl := (Except.ok.injEq _ _).mp h2b
      exact Ext.push_right _
        ((compileExpression_ext a f f1 h1).trans (compileExpression_ext b f1 f2 h2a))
  | .chain init chainItems =>
      simp only [compileExpression] at h
      exact compileChain_ext init chainItems f g h
  | .comment s => simp only [compileExpression] at h; exact Except.noConfusion h
  | .assert e => simp only [compileExpression] at h; exact Except.noConfusion h
  | .importFile s => simp only [compileExpression] at h; exact Except.noConfusion h
  | .print e => simp only [compileExpression] at h; exact Except.noConfusion h
  | .function n p s => simp only [compileExpression] at h; exact Except.noConfusion h
  | .classDecl n i => simp only [compileExpression] at h; exact Except.noConfusion h
  | .constructorDecl p s => simp only [compileExpression] at h; exact Except.noConfusion h
  | .varDecl l r => simp only [compileExpression] at h; exact Except.noConfusion h
  | .assign l r => simp only [compileExpression] at h; exact Except.noConfusion h
  | .keyValuePair k v => simp only [compileExpression] at h; exact Except.noConfusion h
  | .ifElse e t e2 => simp only [compileExpression] at h; exact Except.noConfusion h
  | .whileLoop e s => simp only [compileExpression] at h; exact Except.noConfusion h
  | .forEach i a s => simp only [compileExpression] at h; exact Except.noConfusion h
  | .forI a b c d => simp only [compileExpression] at h; exact Except.noConfusion h
  | .ret e => simp only [compileExpression] at h; exact Except.noConfusion h
termination_by (sizeOf token, 9)

theorem compileExpressionList_ext (args : List Token) (f g : Function)
    (h : compileExpressionList args f = .ok g) : Ext f g := by
  match args with
  | [] =>
      simp only [compileExpressionList] at h
      obtain rfl := (Except.ok.injEq _ _).mp h
      exact Ext.rfl f
  | a :: rest =>
      simp only [compileExpressionList] at h
      rw [bind_eq_ok] at h
      obtain ⟨f1, h1, h2⟩ := h
      exact (compileExpression_ext a f f1 h1).trans (compileExpressionList_ext rest f1 g h2)
termination_by (sizeOf args, 9)

theorem compileArrayElements_ext (elements : List Token) (f g : Function)
    (h : compileArrayElements elements f = .ok g) : Ext f g := by
  match elements with
  | [] =>
      simp only [compileArrayElements] at h
      obtain rfl := (Except.ok.injEq _ _).mp h
      exact Ext.rfl f
  | e :: rest =>
      simp only [compileArrayElements] at h
      rw [bind_eq_ok] at h
      obtain ⟨f1, h1, h2⟩ := h
      exact ((compileExpression_ext e f f1 h1).push_right _).trans
        (compileArrayElements_ext rest _ g h2)
termination_by (sizeOf elements, 9)

theorem compileDictPairs_ext (pairs : List Token) (f g : Function)
    (h : compileDictPairs pairs f = .ok g) : Ext f g := by
  match pairs with
  | [] =>
      simp only [compileDictPairs] at h
      obtain rfl := (Except.ok.injEq _ _).mp h
      exact Ext.rfl f
  | p :: rest =>
      cases p
      case keyValuePair k v =>
        simp only [compileDictPairs] at h
        rw [bind_eq_ok] at h
        obtain ⟨f1, h1, h2⟩ := h
        exact (((Ext.push f _).trans (compileExpression_ext v _ f1 h1)).push_right _).trans
          (compileDictPairs_ext rest _ g h2)
      all_goals
        simp only [compileDictPairs] at h
        exact compileDictPairs_ext rest f g h
termination_by (sizeOf pairs, 9)

theorem compileChain_ext (start : Token) (chainItems : List Token) (f g : Function)
    (h : compileChain start chainItems f = .ok g) : Ext f g := by
  simp only [compileChain] at h
  rw [bind_eq_ok] at h
  obtain ⟨f1, h1, h2⟩ := h
  exact (compileExpression_ext start f f1 h1).trans
    (compileChainItems_ext start.toStr chainItems f1 g h2)
termination_by (1 + sizeOf start + sizeOf chainItems, 5)

theorem compileChainItems_ext (startStr : String) (chainItems : List Token) (f g : Function)
    (h : compileChainItems startStr chainItems f = .ok g) : Ext f g := by
  match chainItems with
  | [] =>
      simp only [compileChainItems] at h
      obtain rfl := (Except.ok.injEq _ _).mp h
      exact Ext.rfl f
  | item :: rest =>
      cases item
      case identifier name =>
        simp only [compileChainItems] at h
        rw [bind_eq_ok] at h
        obtain ⟨f1, h1, h2⟩ := h
        refine Ext.trans ?_ (compileChainItems_ext startStr rest f1 g h2)
        obtain rfl := (Except.ok.injEq _ _).mp h1
        exact (Ext.push f _).push_right _
      case call cname cargs =>
        simp only [compileChainItems] at h
        rw [bind_eq_ok] at h
        obtain ⟨vr, hvr, h⟩ := h
        rw [bind_eq_ok] at h
        obtain ⟨f2, hargs, h⟩ := h
        rw [bind_eq_ok] at h
        obtain ⟨f3, h3, h2⟩ := h
        obtain rfl := (Except.ok.injEq _ _).mp h3
        refine Ext.trans ?_ (compileChainItems_ext startStr rest _ g h2)
        exact Ext.push_right _
          ((((Ext.push f _).push_right _).push_right _).trans
            (compileExpressionList_ext cargs _ f2 hargs))
      all_goals
        simp only [compileChainItems] at h
        exact Except.noConfusion h
termination_by (sizeOf chainItems, 9)

theorem compileCall_ext (name : Token) (args : List Token) (f g : Function)
    (h : compileCall name args f = .ok g) : Ext f g := by
  simp only [compileCall] at h
  cases hfv : findVariable name.toStr f.vars <;> simp only [hfv] at h
  · rw [bind_eq_ok] at h
    obtain ⟨y, hy, h⟩ := h
    obtain rfl := (Except.ok.injEq _ _).mp hy
    rw [bind_eq_ok] at h
    obtain ⟨f2, hargs, h⟩ := h
    obtain rfl := (Except.ok.injEq _ _).mp h
    exact Ext.push_right _ ((((Ext.push f _).push_right _).push_right _).push_right _
      |>.trans (compileExpressionList_ext args _ f2 hargs))
  · rw [bind_eq_ok] at h
    obtain ⟨y, hy, h⟩ := h
    obtain rfl := (Except.ok.injEq _ _).mp hy
    rw [bind_eq_ok] at h
    obtain ⟨f2, hargs, h⟩ := h
    obtain rfl := (Except.ok.injEq _ _).mp h
    exact Ext.push_right _ ((Ext.push f _).trans (compileExpressionList_ext args _ f2 hargs))
termination_by (1 + sizeOf name + sizeOf args, 5)

theorem compileNewObject_ext (className : String) (params : List Token) (f g : Function)
    (h : compileNewObject className params f = .ok g) : Ext f g := by
  simp only [compileNewObject] at h
  cases hls : lookupSymbol className f.globalLookup <;> simp only [hls] at h
  · exact Except.noConfusion h
  · rw [bind_eq_ok] at h
    obtain ⟨y, hy, h⟩ := h
    obtain rfl := (Except.ok.injEq _ _).mp hy
    rw [bind_eq_ok] at h
    obtain ⟨f1, hAdd, h⟩ := h
    rw [bind_eq_ok] at h
    obtain ⟨vr, hvr, h⟩ := h
    rw [bind_eq_ok] at h
    obtain ⟨f2, hParams, h⟩ := h
    obtain rfl := (Except.ok.injEq _ _).mp h
    have e1 : Ext f f1 :=
      ((Ext.push f _).push_right _).trans (Ext.of_instructions_eq (addVariable_instructions hAdd))
    exact Ext.push_right _ (Ext.push_right _
      (((((e1.push_right _).push_right _).push_right _).push_right _).trans
        (compileExpressionList_ext params _ f2 hParams)))
termination_by (sizeOf params, 10)

end

theorem compileAssert_ext (exp : Token) (f g : Function)
    (h : compileAssert exp f = .ok g) : Ext f g := by
  simp only [compileAssert] at h
  rw [bind_eq_ok] at h
  obtain ⟨f1, h1, h2⟩ := h
  obtain rfl := (Except.ok.injEq _ _).mp h2
  exact (compileExpression_ext exp f f1 h1).push_right _

theorem compilePrint_ext (exp : Token) (f g : Function)
    (h : compilePrint exp f = .ok g) : Ext f g := by
  simp only [compilePrint] at h
  rw [bind_eq_ok] at h
  obtain ⟨f1, h1, h2⟩ := h
  obtain rfl := (Except.ok.injEq _ _).mp h2
  exact (compileExpression_ext exp f f1 h1).push_right _

theorem compileReturn_ext (expr : Token) (f g : Function)
    (h : compileReturn expr f = .ok g) : Ext f g := by
  simp only [compileReturn] at h
  rw [bind_eq_ok] at h
  obtain ⟨f1, h1, h2⟩ := h
  obtain rfl := (Except.ok.injEq _ _).mp h2
  exact (compileExpression_ext expr f f1 h1).push_right _

theorem compileVariable_ext (name value : Token) (f g : Function)
    (h : compileVariable name value f = .ok g) : Ext f g := by
  simp only [compileVariable] at h
  rw [bind_eq_ok] at h
  obtain ⟨f1, hAdd, h⟩ := h
  rw [bind_eq_ok] at h
  obtain ⟨vr, _, h⟩ := h
  rw [bind_eq_ok] at h
  obtain ⟨f2, hVal, h⟩ := h
  obtain rfl := (Except.ok.injEq _ _).mp h
  exact Ext.push_right _ ((Ext.of_instructions_eq (addVariable_instructions hAdd)).trans
    (compileExpression_ext value f1 f2 hVal))

theorem compileAssignment_ext (left right : Token) (f g : Function)
    (h : compileAssignment left right f = .ok g) : Ext f g := by
  cases left
  case identifier name =>
    simp only [compileAssignment] at h
    rw [bind_eq_ok] at h
    obtain ⟨vr, _, h⟩ := h
    rw [bind_eq_ok] at h
    obtain ⟨f1, hVal, h⟩ := h
    obtain rfl := (Except.ok.injEq _ _).mp h
    exact (compileExpression_ext right f f1 hVal).push_right _
  case arrayIndex idTok indexTok =>
    simp only [compileAssignment] at h
    rw [bind_eq_ok] at h
    obtain ⟨vr, _, h⟩ := h
    rw [bind_eq_ok] at h
    obtain ⟨f1, hVal, h⟩ := h
    rw [bind_eq_ok] at h
    obtain ⟨f2, hIdx, h⟩ := h
    obtain rfl := (Except.ok.injEq _ _).mp h
    exact Ext.push_right _ (Ext.push_right _
      (((Ext.push f _).trans (compileExpression_ext right _ f1 hVal)).trans
        (compileExpression_ext indexTok f1 f2 hIdx)))
  all_goals
    simp only [compileAssignment] at h
    exact Except.noConfusion h

theorem compileForeach_ext (item arr : Token) (block : List Token) (f g : Function)
    (h : compileForeach item arr block f = .ok g) : Ext f g := by
  obtain rfl := (Except.ok.injEq _ _).mp h
  exact Ext.rfl f

set_option maxHeartbeats 1600000 in
mutual

theorem compileStatements_ext (statements : List Token) (f g : Function)
    (h : compileStatements statements f = .ok g) : Ext f g := by
  match statements with
  | [] =>
      simp only [compileStatements] at h
      obtain rfl := (Except.ok.injEq _ _).mp h
      exact Ext.rfl f
  | stmt :: rest =>
      simp only [compileStatements] at h
      rw [bind_eq_ok] at h
      obtain ⟨f1, h1, h2⟩ := h
      exact (compileStatement_ext stmt f f1 h1).trans (compileStatements_ext rest f1 g h2)
termination_by (sizeOf statements, 9)

theorem compileStatement_ext (statement : Token) (f g : Function)
    (h : compileStatement statement f = .ok g) : Ext f g := by
  match statement with
  | .assert exp =>
      simp only [compileStatement] at h
      exact compileAssert_ext exp f g h
  | .print exp =>
      simp only [compileStatement] at h
      exact compilePrint_ext exp f g h
  | .call name args =>
      simp only [compileStatement] at h
      exact compileCall_ext name args f g h
  | .varDecl left right =>
      simp only [compileStatement] at h
      exact compileVariable_ext left right f g h
  | .assign left right =>
      simp only [compileStatement] at h
      exact compileAssignment_ext left right f g h
  | .ifElse expr thenBody elseBody =>
      simp only [compileStatement] at h
      exact compileIfelse_ext expr thenBody elseBody f g h
  | .whileLoop expr stmts =>
      simp only [compileStatement] at h
      exact compileWhileloop_ext expr stmts f g h
  | .forEach item arr stmts =>
      simp only [compileStatement] at h
      exact compileForeach_ext item arr stmts f g h
  | .ret expr =>
      simp only [compileStatement] at h
      exact compileReturn_ext expr f g h
  | .forI start stop stepTok stmts =>
      simp only [compileStatement] at h
      exact compileForloop_ext start stop stepTok stmts f g h
  | .chain start chainItems =>
      simp only [compileStatement] at h
      exact compileChain_ext start chainItems f g h
  | .comment s =>
      simp only [compileStatement] at h
      obtain rfl := (Except.ok.injEq _ _).mp h
      exact Ext.rfl f
  | .importFile s =>
      simp only [compileStatement] at h
      exact Except.noConfusion h
  | .function n p s =>
      simp only [compileStatement] at h
      exact Except.noConfusion h
  | .anonFunction p s =>
      simp only [compileStatement] at h
      exact Except.noConfusion h
  | .classDecl n i2 =>
      simp only [compileStatement] at h
      exact Except.noConfusion h
  | .constructorDecl p s =>
      simp only [compileStatement] at h
      exact Except.noConfusion h
  | .identifier n =>
      simp only [compileStatement] at h
      exact Except.noConfusion h
  | .null =>
      simp only [compileStatement] at h
      exact Except.noConfusion h
  | .integer v =>
      simp only [compileStatement] at h
      exact Except.noConfusion h
  | .float v =>
      simp only [compileStatement] at h
      exact Except.noConfusion h
  | .bool v =>
      simp only [compileStatement] at h
      exact Except.noConfusion h
  | .string v =>
      simp only [compileStatement] at h
      exact Except.noConfusion h
  | .array e =>
      simp only [compileStatement] at h
      exact Except.noConfusion h
  | .object a b =>
      simp only [compileStatement] at h
      exact Except.noConfusion h
  | .dictionary p =>
      simp only [compileStatement] at h
      exact Except.noConfusion h
  | .keyValuePair k v =>
      simp only [compileStatement] at h
      exact Except.noConfusion h
  | .arrayIndex a b =>
      simp only [compileStatement] at h
      exact Except.noConfusion h
  | .eq a b =>
      simp only [compileStatement] at h
      exact Except.noConfusion h
  | .ne a b =>
      simp only [compileStatement] at h
      exact Except.noConfusion h
  | .lt a b =>
      simp only [compileStatement] at h
      exact Except.noConfusion h
  | .le a b =>
      simp only [compileStatement] at h
      exact Except.noConfusion h
  | .gt a b =>
      simp only [compileStatement] at h
      exact Except.noConfusion h
  | .ge a b =>
      simp only [compileStatement] at h
      exact Except.noConfusion h
  | .add a b =>
      simp only [compileStatement] at h
      exact Except.noConfusion h
  | .sub a b =>
      simp only [compileStatement] at h
      exact Except.noConfusion h
  | .mul a b =>
      simp only [compileStatement] at h
      exact Except.noConfusion h
  | .div a b =>
      simp only [compileStatement] at h
      exact Except.noConfusion h
  | .pow a b =>
      simp only [compileStatement] at h
      exact Except.noConfusion h
termination_by (sizeOf statement, 9)

theorem compileIfelse_ext (expr : Token) (thenBody : List Token)
    (elseBody : Option (List Token)) (f g : Function)
    (h : compileIfelse expr thenBody elseBody f = .ok g) : Ext f g := by
  simp only [compileIfelse] at h
  rw [bind_eq_ok] at h
  obtain ⟨f1, hExpr, h⟩ := h
  rw [bind_eq_ok] at h
  obtain ⟨f2, hThen, h⟩ := h
  have e1 : Ext f f1 := compileExpression_ext expr f f1 hExpr
  have e2 : Ext f f2 := (e1.push_right _).trans
    (compileStatements_ext thenBody _ f2 hThen)
  have e4 : Ext f (setIns (pushIns f2 (.halt "can not jump tot end"))
      f1.instructions.length
      (.jumpIfFalse (i32ofNat ((pushIns f2 (.halt "can not jump tot end")).instructions.length
        - f1.instructions.length)))) :=
    Ext.set_right _ (e2.push_right _) e1.length_le
  cases elseBody with
  | none =>
      rw [bind_eq_ok] at h
      obtain ⟨f5, hf5, h⟩ := h
      obtain rfl := (Except.ok.injEq _ _).mp h
      obtain rfl := (Except.ok.injEq _ _).mp hf5
      exact Ext.set_right _ e4 e2.length_le
  | some els =>
      rw [bind_eq_ok] at h
      obtain ⟨f5, hElse, h⟩ := h
      obtain rfl := (Except.ok.injEq _ _).mp h
      exact Ext.set_right _ (e4.trans (compileStatements_ext els _ f5 hElse)) e2.length_le
termination_by (1 + sizeOf expr + sizeOf thenBody + sizeOf elseBody, 5)

theorem compileWhileloop_ext (expr : Token) (block : List Token) (f g : Function)
    (h : compileWhileloop expr block f = .ok g) : Ext f g := by
  simp only [compileWhileloop] at h
  rw [bind_eq_ok] at h
  obtain ⟨f1, hExpr, h⟩ := h
  rw [bind_eq_ok] at h
  obtain ⟨f2, hBody, h⟩ := h
  obtain rfl := (Except.ok.injEq _ _).mp h
  have e1 : Ext f f1 := compileExpression_ext expr f f1 hExpr
  have e2 : Ext f f2 := (e1.push_right _).trans (compileStatements_ext block _ f2 hBody)
  exact Ext.set_right _ (e2.push_right _) e1.length_le
termination_by (1 + sizeOf expr + sizeOf block, 5)

theorem compileForloop_ext (start stop stepTok : Token) (block : List Token)
    (f g : Function) (h : compileForloop start stop stepTok block f = .ok g) : Ext f g := by
  simp only [compileForloop] at h
  rw [bind_eq_ok] at h
  obtain ⟨f1, hStart, h⟩ := h
  rw [bind_eq_ok] at h
  obtain ⟨f2, hStop, h⟩ := h
  rw [bind_eq_ok] at h
  obtain ⟨f3, hBlock, h⟩ := h
  rw [bind_eq_ok] at h
  obtain ⟨f4, hStep, h⟩ := h
  obtain rfl := (Except.ok.injEq _ _).mp h
  have e1 : Ext f f1 := compileStatement_ext start f f1 hStart
  have e2 : Ext f f2 := e1.trans (compileExpression_ext stop f1 f2 hStop)
  have e4 : Ext f f4 := ((e2.push_right _).trans (compileStatements_ext block _ f3 hBlock)).trans
    (compileStatement_ext stepTok f3 f4 hStep)
  exact Ext.set_right _ (e4.push_right _) e2.length_le
termination_by (1 + sizeOf start + sizeOf stop + sizeOf stepTok + sizeOf block, 5)

end

/-- Decomposition of a successful `compile_ifelse` run: the final
instruction vector is the entry code, the condition code, the patched
`JumpIfFalse`, the then-code, the patched forward jump and the else-code,
with both deltas determined by the region lengths. -/
theorem compileIfelse_backpatch_shape (expr : Token) (thenBody : List Token)
    (elseBody : Option (List Token)) (f fEnd : Function)
    (h : compileIfelse expr thenBody elseBody f = .ok fEnd) :
    ∃ (f1 f2 : Function) (condCode thenCode elseCode : List Instruction),
      compileExpression expr f = .ok f1 ∧
      f1.instructions = f.instructions ++ condCode ∧
      compileStatements thenBody (pushIns f1 (.halt "no where to jump to")) = .ok f2 ∧
      f2.instructions = f1.instructions ++ [.halt "no where to jump to"] ++ thenCode ∧
      (elseBody = none → elseCode = []) ∧
      fEnd.instructions =
        f.instructions ++ condCode
          ++ [.jumpIfFalse (i32ofNat (thenCode.length + 2))] ++ thenCode
          ++ [.jumpForward (elseCode.length + 1)] ++ elseCode := by
  simp only [compileIfelse] at h
  rw [bind_eq_ok] at h
  obtain ⟨f1, hExpr, h⟩ := h
  rw [bind_eq_ok] at h
  obtain ⟨f2, hThen, h⟩ := h
  obtain ⟨condCode, hc⟩ := compileExpression_ext expr f f1 hExpr
  obtain ⟨thenCode, ht⟩ := compileStatements_ext thenBody _ f2 hThen
  have h2i : f2.instructions
      = (f.instructions ++ condCode ++ [.halt "no where to jump to"]) ++ thenCode := by
    rw [ht]
    simp [pushIns, hc, List.append_assoc]
  have hl1 : f1.instructions.length = f.instructions.length + condCode.length := by simp [hc]
  have hl2 : f2.instructions.length
      = f.instructions.length + condCode.length + 1 + thenCode.length := by
    simp [h2i]
    omega
  have hd1 : (pushIns f2 (Instruction.halt "can not jump tot end")).instructions.length
      - f1.instructions.length = thenCode.length + 2 := by
    simp [pushIns, hl1, hl2]
    omega
  cases elseBody with
  | none =>
      rw [bind_eq_ok] at h
      obtain ⟨f5, hf5, h⟩ := h
      obtain rfl := (Except.ok.injEq _ _).mp h
      obtain rfl := (Except.ok.injEq _ _).mp hf5
      refine ⟨f1, f2, condCode, thenCode, [], hExpr, hc, hThen, by rw [ht]; rfl,
        fun _ => rfl, ?_⟩
      rw [hd1]
      have s1 : (pushIns f2 (Instruction.halt "can not jump tot end")).instructions
          = (f.instructions ++ condCode)
            ++ (Instruction.halt "no where to jump to"
                :: (thenCode ++ [Instruction.halt "can not jump tot end"])) := by
        simp [pushIns, h2i, List.append_assoc]
      have s2 : (setIns (pushIns f2 (Instruction.halt "can not jump tot end"))
            f1.instructions.length
            (Instruction.jumpIfFalse (i32ofNat (thenCode.length + 2)))).instructions
          = (f.instructions ++ condCode
              ++ [Instruction.jumpIfFalse (i32ofNat (thenCode.length + 2))] ++ thenCode)
            ++ (Instruction.halt "can not jump tot end" :: []) := by
        show (pushIns f2 (Instruction.halt "can not jump tot end")).instructions.set _ _ = _
        rw [s1, set_at_boundary _ _ _ _ _ (by simp [hl1])]
        simp [List.append_assoc]
      have hl4 : (setIns (pushIns f2 (Instruction.halt "can not jump tot end"))
            f1.instructions.length
            (Instruction.jumpIfFalse (i32ofNat (thenCode.length + 2)))).instructions.length
          = f2.instructions.length + 1 := by
        simp [setIns, pushIns]
      show ((setIns _ _ _).instructions.set f2.instructions.length _) = _
      rw [hl4]
      have hdelta : f2.instructions.length + 1 - f2.instructions.length = 1 := by omega
      rw [hdelta, s2, set_at_boundary _ _ _ _ _ (by simp [hl2]; omega)]
      simp [List.append_assoc]
  | some els =>
      rw [bind_eq_ok] at h
      obtain ⟨f5, hElse, h⟩ := h
      obtain rfl := (Except.ok.injEq _ _).mp h
      obtain ⟨elseCode, he⟩ := compileStatements_ext els _ f5 hElse
      refine ⟨f1, f2, condCode, thenCode, elseCode, hExpr, hc, hThen, by rw [ht]; rfl,
        by simp, ?_⟩
      rw [hd1] at he
      have s1 : (pushIns f2 (Instruction.halt "can not jump tot end")).instructions
          = (f.instructions ++ condCode)
            ++ (Instruction.halt "no where to jump to"
                :: (thenCode ++ [Instruction.halt "can not jump tot end"])) := by
        simp [pushIns, h2i, List.append_assoc]
      have s2 : (setIns (pushIns f2 (Instruction.halt "can not jump tot end"))
            f1.instructions.length
            (Instruction.jumpIfFalse (i32ofNat (thenCode.length + 2)))).instructions
          = (f.instructions ++ condCode
              ++ [Instruction.jumpIfFalse (i32ofNat (thenCode.length + 2))] ++ thenCode)
            ++ [Instruction.halt "can not jump tot end"] := by
        show (pushIns f2 (Instruction.halt "can not jump tot end")).instructions.set _ _ = _
        rw [s1, set_at_boundary _ _ _ _ _ (by simp [hl1])]
        simp [List.append_assoc]
      have he2 : f5.instructions
          = (f.instructions ++ condCode
              ++ [Instruction.jumpIfFalse (i32ofNat (thenCode.length + 2))] ++ thenCode)
            ++ (Instruction.halt "can not jump tot end" :: elseCode) := by
        rw [he, s2]
        simp [List.append_assoc]
      have hl5 : f5.instructions.length
          = f2.instructions.length + 1 + elseCode.length := by
        simp [he2, hl2]
        omega
      have hdelta : f5.instructions.length - f2.instructions.length
          = elseCode.length + 1 := by omega
      show f5.instructions.set f2.instructions.length _ = _
      rw [hdelta, he2, set_at_boundary _ _ _ _ _ (by simp [hl2]; omega)]
      simp [List.append_assoc]

/-- Decomposition of a successful `compile_whileloop` run: condition code,
patched `JumpIfFalse`, body code, and the backward jump with delta equal to
the distance back to the first instruction of the condition. -/
theorem compileWhileloop_backpatch_shape (expr : Token) (block : List Token)
    (f fEnd : Function) (h : compileWhileloop expr block f = .ok fEnd) :
    ∃ (f1 f2 : Function) (condCode bodyCode : List Instruction),
      compileExpression expr f = .ok f1 ∧
      f1.instructions = f.instructions ++ condCode ∧
      compileStatements block (pushIns f1 (.halt "no jump-not-true provided")) = .ok f2 ∧
      f2.instructions = f1.instructions ++ [.halt "no jump-not-true provided"] ++ bodyCode ∧
      fEnd.instructions =
        f.instructions ++ condCode
          ++ [.jumpIfFalse (i32ofNat (bodyCode.length + 2))] ++ bodyCode
          ++ [.jumpBackward (condCode.length + 1 + bodyCode.length)] := by
  simp only [compileWhileloop] at h
  rw [bind_eq_ok] at h
  obtain ⟨f1, hExpr, h⟩ := h
  rw [bind_eq_ok] at h
  obtain ⟨f2, hBody, h⟩ := h
  obtain rfl := (Except.ok.injEq _ _).mp h
  obtain ⟨condCode, hc⟩ := compileExpression_ext expr f f1 hExpr
  obtain ⟨bodyCode, ht⟩ := compileStatements_ext block _ f2 hBody
  have h2i : f2.instructions
      = (f.instructions ++ condCode ++ [.halt "no jump-not-true provided"]) ++ bodyCode := by
    rw [ht]
    simp [pushIns, hc, List.append_assoc]
  have hl1 : f1.instructions.length = f.instructions.length + condCode.length := by simp [hc]
  have hl2 : f2.instructions.length
      = f.instructions.length + condCode.length + 1 + bodyCode.length := by
    simp [h2i]
    omega
  have hjb : f2.instructions.length - f.instructions.length
      = condCode.length + 1 + bodyCode.length := by omega
  have hd1 : (pushIns f2 (Instruction.jumpBackward
        (condCode.length + 1 + bodyCode.length))).instructions.length
      - f1.instructions.length = bodyCode.length + 2 := by
    simp [pushIns, hl1, hl2]
    omega
  refine ⟨f1, f2, condCode, bodyCode, hExpr, hc, hBody, by rw [ht]; rfl, ?_⟩
  rw [hjb, hd1]
  have s1 : (pushIns f2 (Instruction.jumpBackward
        (condCode.length + 1 + bodyCode.length))).instructions
      = (f.instructions ++ condCode)
        ++ (Instruction.halt "no jump-not-true provided"
            :: (bodyCode ++ [Instruction.jumpBackward
                (condCode.length + 1 + bodyCode.length)])) := by
    simp [pushIns, h2i, List.append_assoc]
  show (pushIns f2 _).instructions.set f1.instructions.length _ = _
  rw [s1, set_at_boundary _ _ _ _ _ (by simp [hl1])]
  simp [List.append_assoc]

/-- **C9.**  If the compiled program contains zero instructions, `exec`
returns `Ok(Null)` for every entry name and argument list: the
`instructions.len() == 0` check fires before any frame is pushed or any
instruction is fetched. -/
theorem exec_empty_program_returns_null (fuel : Nat) (p : Program) (entry : String)
    (params : Option (List Value)) (h : p.instructions = []) :
    exec fuel p entry params = .ok .null := by
  unfold exec
  rw [h]
  simp

/-- Witness for **C9** at a concrete program (non-trivial symbol table and
arguments). -/
theorem exec_empty_program_returns_null_witness :
    (Program.mk [] [("Main.main", 3)] [.integer 1]).instructions = [] ∧
      exec 5 (Program.mk [] [("Main.main", 3)] [.integer 1]) "Main.main"
        (some [.integer 9]) = .ok .null :=
  ⟨rfl, exec_empty_program_returns_null 5 _ "Main.main" (some [.integer 9]) rfl⟩

/-- **C2, counterexample.**  The claim says a missing entry symbol makes
`exec` return an error before executing anything.  In fact `VM::exec` only
sets `ip` when the symbol is present; when it is absent `ip` stays `0` and
the program runs from its first instruction.  Here the symbol table is empty,
yet `exec` runs the single `StackPush` and returns `Ok(Integer(7))`. -/
theorem exec_missing_entry_cex :
    exec 2 (Program.mk [.stackPush (.integer 7)] [] []) "Main.main" none
      = .ok (.integer 7) := by
  rfl

/-- **C2, amended.**  For an entry symbol not present in the symbol table,
`exec` does not fail on that account: the instruction pointer keeps its
initial value `0` and the loop runs from the first instruction (and an empty
program still returns `Null`). -/
theorem exec_missing_entry_runs_from_zero (fuel : Nat) (p : Program) (entry : String)
    (params : Option (List Value)) (h : lookupSymbol entry p.symbols = none) :
    exec fuel p entry params =
      if p.instructions.length = 0 then .ok .null
      else
        vmLoop fuel
          { instructions := p.instructions
            functions := p.symbols
            frames := [Frame.new "main" none params]
            globals := p.globals
            ip := 0 } := by
  unfold exec
  rw [h]

/-- Witness for **C2** (amended) at a concrete program whose symbol table
does not contain the requested entry. -/
theorem exec_missing_entry_runs_from_zero_witness :
    lookupSymbol "Main.main" (Program.mk [.stackPush (.integer 7)] [("A.b", 0)] []).symbols
        = none ∧
      exec 2 (Program.mk [.stackPush (.integer 7)] [("A.b", 0)] []) "Main.main" none =
        if (Program.mk [.stackPush (.integer 7)] [("A.b", 0)] []).instructions.length = 0
        then .ok .null
        else
          vmLoop 2
            { instructions := [.stackPush (.integer 7)]
              functions := [("A.b", 0)]
              frames := [Frame.new "main" none none]
              globals := []
              ip := 0 } :=
  ⟨rfl, exec_missing_entry_runs_from_zero 2 _ "Main.main" none rfl⟩

/-- **C5, counterexample.**  The claim says a mixed `Integer`/`Float`
ordering comparison succeeds by promoting the integer to float.  In fact
`impl PartialOrd for Value` has arms only for `Integer/Integer` and
`Float/Float`; a mixed pair hits `unreachable!` — a runtime failure. -/
theorem valuePartialCmp_mixed_cex :
    valuePartialCmp (.integer 1) (.float 2) = .error "can not subtract values" := by
  rfl

/-- **C5, amended.**  An ordering comparison of two values succeeds exactly
when both are `Integer` or both are `Float`; every other pairing — including
mixed `Integer`/`Float` — is a runtime failure. -/
theorem valuePartialCmp_succeeds_iff (v1 v2 : Value) :
    (∃ o, valuePartialCmp v1 v2 = .ok o) ↔
      ((∃ a b, v1 = .integer a ∧ v2 = .integer b) ∨
       (∃ p q, v1 = .float p ∧ v2 = .float q)) := by
  cases v1 <;> cases v2 <;> simp [valuePartialCmp]

/-- **C4, counterexample.**  The claim says `pop_values_from_stack n`
returns the removed values ordered from deeper to shallower (reversed from
pop order).  On the stack holding `1` below `2`, popping two values returns
`[2, 1]` — pop order, top of the stack first — not `[1, 2]`. -/
theorem popValuesFromStack_order_cex :
    Frame.popValuesFromStack 2 (Frame.mk "test" none [] [.integer 2, .integer 1])
        = .ok ([.integer 2, .integer 1], Frame.mk "test" none [] []) ∧
      ([Value.integer 2, Value.integer 1] ≠ [Value.integer 1, Value.integer 2]) := by
  exact ⟨rfl, by simp⟩

/-- **C4, amended.**  For `n` at most the stack depth,
`pop_values_from_stack n` returns the `n` removed values in pop order — the
shallowest (top of stack) first — together with the remaining frame.  (The
deeper-to-shallower order described by the spec is produced later, at the
`Call` site, by `args.reverse()`.) -/
theorem popValuesFromStack_pop_order (n : Nat) (fr : Frame) (h : n ≤ fr.data.length) :
    Frame.popValuesFromStack n fr
      = .ok (fr.data.take n, { fr with data := fr.data.drop n }) := by
  induction n generalizing fr with
  | zero => simp [Frame.popValuesFromStack]
  | succ m ih =>
      obtain ⟨nm, rp, vars, data⟩ := fr
      cases data with
      | nil => simp at h
      | cons v rest =>
          have hrest : m ≤ rest.length := by simpa using h
          simp [Frame.popValuesFromStack, Frame.popValueFromStack, bind, Except.bind,
            ih ⟨nm, rp, vars, rest⟩ hrest]

/-- Witness for **C4** (amended) on a concrete two-element stack. -/
theorem popValuesFromStack_pop_order_witness :
    2 ≤ (Frame.mk "w" none [] [.integer 2, .integer 1, .null]).data.length ∧
      Frame.popValuesFromStack 2 (Frame.mk "w" none [] [.integer 2, .integer 1, .null])
        = .ok ([.integer 2, .integer 1], Frame.mk "w" none [] [.null]) :=
  ⟨by simp, popValuesFromStack_pop_order 2 _ (by simp)⟩

/-- **C7.**  The claim (and the spec) say `Pow` pops the right operand,
pops the left operand and pushes the result.  The interpreter arm for
`Instruction::Pow` is `// todo: implement`: it only advances `ip`, touching
neither operand; the stack keeps both operands and gains no result.  Here
the stack `[3, 2]` is unchanged after executing `Pow`. -/
theorem pow_is_unimplemented_noop :
    step
        { instructions := [.pow]
          functions := []
          frames := [Frame.mk "main" none [] [.integer 3, .integer 2]]
          globals := []
          ip := 0 }
      = .ok (.next
        { instructions := [.pow]
          functions := []
          frames := [Frame.mk "main" none [] [.integer 3, .integer 2]]
          globals := []
          ip := 1 }) := by
  rfl

/-- **C3.**  The claim (and the spec) describe the loop code emitted for
`for (x in arr) { body }`.  The whole body of
`Function::compile_foreach` is commented out in the source, so compiling a
for-in loop emits no instructions at all and leaves the compiler state
untouched — the loop body can never execute.  (The repository's own test
`tests/test.rs::for_in_loop` expects the loop to run.) -/
theorem compileForeach_emits_nothing :
    (∀ (item arr : Token) (block : List Token) (f : Function),
        compileForeach item arr block f = .ok f) ∧
      (∀ (item arr : Token) (block : List Token) (f : Function),
        compileStatement (.forEach item arr block) f = .ok f) := by
  constructor
  · intro item arr block f
    rfl
  · intro item arr block f
    rw [compileStatement]
    rfl

/-- **C10.**  `JumpIfFalse` only matches `Value::Bool(false)` for taking the
jump; every other popped value — booleans `true`, integers, strings, `Null`,
collections — falls to the catch-all arm, which advances `ip` by one without
failing. -/
theorem jumpIfFalse_nonfalse_advances
    (instrs : List Instruction) (fns : List (String × Nat)) (gl : List Value) (ip : Nat)
    (nm : String) (rp : Option Nat) (vars : List Value)
    (d : Int) (v : Value) (rest : List Value) (frs : List Frame)
    (hi : instrs[ip]? = some (.jumpIfFalse d))
    (hv : v ≠ .bool false) :
    step ⟨instrs, fns, ⟨nm, rp, vars, v :: rest⟩ :: frs, gl, ip⟩
      = .ok (.next ⟨instrs, fns, ⟨nm, rp, vars, rest⟩ :: frs, gl, ip + 1⟩) := by
  unfold step
  rw [hi]
  cases v with
  | bool b =>
      cases b with
      | false => exact absurd rfl hv
      | true => rfl
  | null => rfl
  | integer _ => rfl
  | float _ => rfl
  | string _ => rfl
  | array _ => rfl
  | dictionary _ => rfl
  | classV _ => rfl
  | object _ => rfl
  | functionRef _ => rfl

/-- Witness for **C10**: a `JumpIfFalse 5` popping the integer `3` advances
`ip` from `0` to `1` instead of jumping or failing. -/
theorem jumpIfFalse_nonfalse_advances_witness :
    ([Instruction.jumpIfFalse 5, .halt "x"][0]? = some (.jumpIfFalse 5)) ∧
      (Value.integer 3 ≠ .bool false) ∧
      step ⟨[.jumpIfFalse 5, .halt "x"], [], [⟨"main", none, [], [.integer 3]⟩], [], 0⟩
        = .ok (.next ⟨[.jumpIfFalse 5, .halt "x"], [], [⟨"main", none, [], []⟩], [], 1⟩) :=
  ⟨rfl, by simp,
    jumpIfFalse_nonfalse_advances [.jumpIfFalse 5, .halt "x"] [] [] 0 "main" none [] 5
      (.integer 3) [] [] rfl (by simp)⟩

/-- **C1, counterexample.**  The claim says `IndexGet` on an `Object` with a
string key pushes the named field's value.  The interpreter's
`GetCollectionItemByKey` only has arms for `Array` and `Dictionary`; an
`Object` falls to `panic!("can not get index on non-collection …")` even
though the field exists. -/
theorem indexGet_object_cex :
    step ⟨[.getCollectionItemByKey], [],
        [⟨"main", none, [], [.string "f", .object [("f", .integer 7)], .null]⟩], [], 0⟩
      = .error "can not get index on non-collection f" := by
  rfl

/-- **C1, amended.**  `IndexGet` pops a key, then a collection.  For an
array with an in-bounds `i32` integer key it pushes the element at that
position; for a dictionary with a present string key it pushes the stored
value; but for an `Object` (with any key) it is a runtime failure — the
object arm described by the spec does not exist. -/
theorem indexGet_semantics :
    (∀ (instrs : List Instruction) (fns : List (String × Nat)) (gl : List Value) (ip : Nat)
       (nm : String) (rp : Option Nat) (vars rest : List Value) (frs : List Frame)
       (items : List Value) (i : Nat),
       instrs[ip]? = some .getCollectionItemByKey →
       ∀ (hlen : i < items.length), i < 2 ^ 31 →
       step ⟨instrs, fns, ⟨nm, rp, vars, .integer i :: .array items :: rest⟩ :: frs, gl, ip⟩
         = .ok (.next ⟨instrs, fns, ⟨nm, rp, vars, items[i] :: rest⟩ :: frs, gl, ip + 1⟩)) ∧
    (∀ (instrs : List Instruction) (fns : List (String × Nat)) (gl : List Value) (ip : Nat)
       (nm : String) (rp : Option Nat) (vars rest : List Value) (frs : List Frame)
       (entries : List (String × Value)) (k : String) (v : Value),
       instrs[ip]? = some .getCollectionItemByKey →
       lookupEntry k entries = some v →
       step ⟨instrs, fns, ⟨nm, rp, vars, .string k :: .dictionary entries :: rest⟩ :: frs, gl, ip⟩
         = .ok (.next ⟨instrs, fns, ⟨nm, rp, vars, v :: rest⟩ :: frs, gl, ip + 1⟩)) ∧
    (∀ (instrs : List Instruction) (fns : List (String × Nat)) (gl : List Value) (ip : Nat)
       (nm : String) (rp : Option Nat) (vars rest : List Value) (frs : List Frame)
       (fields : List (String × Value)) (k : String),
       instrs[ip]? = some .getCollectionItemByKey →
       step ⟨instrs, fns, ⟨nm, rp, vars, .string k :: .object fields :: rest⟩ :: frs, gl, ip⟩
         = .error ("can not get index on non-collection " ++ k)) := by
  refine ⟨?_, ?_, ?_⟩
  · intro instrs fns gl ip nm rp vars rest frs items i hi hlen hsmall
    unfold step
    rw [hi]
    simp [Frame.popValueFromStack, Frame.pushValueToStack, bind, Except.bind,
      i32asUsize_ofNat i hsmall, List.getElem?_eq_getElem hlen]
  · intro instrs fns gl ip nm rp vars rest frs entries k v hi hk
    unfold step
    rw [hi]
    simp [Frame.popValueFromStack, Frame.pushValueToStack, bind, Except.bind, hk]
  · intro instrs fns gl ip nm rp vars rest frs fields k hi
    unfold step
    rw [hi]
    rfl

/-- Witness for **C1** (amended): all three parts at concrete inputs —
`[10, 20][1]` is `20`, `{"a": 5}["a"]` is `5`, and the object lookup fails. -/
theorem indexGet_semantics_witness :
    (([Instruction.getCollectionItemByKey][0]? = some .getCollectionItemByKey) ∧
      step ⟨[.getCollectionItemByKey], [],
          [⟨"m", none, [], [.integer 1, .array [.integer 10, .integer 20]]⟩], [], 0⟩
        = .ok (.next ⟨[.getCollectionItemByKey], [],
          [⟨"m", none, [], [.integer 20]⟩], [], 1⟩)) ∧
    (step ⟨[.getCollectionItemByKey], [],
          [⟨"m", none, [], [.string "a", .dictionary [("a", .integer 5)]]⟩], [], 0⟩
        = .ok (.next ⟨[.getCollectionItemByKey], [],
          [⟨"m", none, [], [.integer 5]⟩], [], 1⟩)) ∧
    (step ⟨[.getCollectionItemByKey], [],
          [⟨"m", none, [], [.string "x", .object [("x", .null)]]⟩], [], 0⟩
        = .error "can not get index on non-collection x") := by
  obtain ⟨h1, h2, h3⟩ := indexGet_semantics
  exact ⟨⟨rfl,
      h1 [.getCollectionItemByKey] [] [] 0 "m" none [] [] []
        [.integer 10, .integer 20] 1 rfl (by simp) (by norm_num)⟩,
    h2 [.getCollectionItemByKey] [] [] 0 "m" none [] [] [] [("a", .integer 5)] "a"
      (.integer 5) rfl rfl,
    h3 [.getCollectionItemByKey] [] [] 0 "m" none [] [] [] [("x", .null)] "x" rfl⟩

/-- **C8, counterexample.**  The claim includes objects in the
set-then-get round-trip.  `SetCollectionItemByKey` has no `Object` arm
either: setting a member on an object panics
(`"can not get index on non-collection"`), so the round-trip cannot even
start. -/
theorem indexSet_object_cex :
    step ⟨[.setCollectionItemByKey], [],
        [⟨"main", none, [], [.string "f", .integer 1, .object [("f", .integer 7)]]⟩], [], 0⟩
      = .error "can not get index on non-collection" := by
  rfl

/-- **C8, amended.**  Executing `IndexSet` with key `k` and value `v`, then
pushing `k` again and executing `IndexGet`, pushes exactly `v` — for arrays
with an in-bounds `i32` integer key and for dictionaries with a string key.
For objects both instructions are runtime failures (see the
counterexample). -/
theorem indexSet_indexGet_roundtrip :
    (∀ (fns : List (String × Nat)) (gl : List Value)
       (nm : String) (rp : Option Nat) (vars rest : List Value) (frs : List Frame)
       (items : List Value) (i : Nat) (v : Value),
       ∀ (hlen : i < items.length), i < 2 ^ 31 →
       step ⟨[.setCollectionItemByKey, .stackPush (.integer i), .getCollectionItemByKey],
           fns, ⟨nm, rp, vars, .integer i :: v :: .array items :: rest⟩ :: frs, gl, 0⟩
         = .ok (.next ⟨[.setCollectionItemByKey, .stackPush (.integer i), .getCollectionItemByKey],
           fns, ⟨nm, rp, vars, .array (items.set i v) :: rest⟩ :: frs, gl, 1⟩) ∧
       step ⟨[.setCollectionItemByKey, .stackPush (.integer i), .getCollectionItemByKey],
           fns, ⟨nm, rp, vars, .array (items.set i v) :: rest⟩ :: frs, gl, 1⟩
         = .ok (.next ⟨[.setCollectionItemByKey, .stackPush (.integer i), .getCollectionItemByKey],
           fns, ⟨nm, rp, vars, .integer i :: .array (items.set i v) :: rest⟩ :: frs, gl, 2⟩) ∧
       step ⟨[.setCollectionItemByKey, .stackPush (.integer i), .getCollectionItemByKey],
           fns, ⟨nm, rp, vars, .integer i :: .array (items.set i v) :: rest⟩ :: frs, gl, 2⟩
         = .ok (.next ⟨[.setCollectionItemByKey, .stackPush (.integer i), .getCollectionItemByKey],
           fns, ⟨nm, rp, vars, v :: rest⟩ :: frs, gl, 3⟩)) ∧
    (∀ (fns : List (String × Nat)) (gl : List Value)
       (nm : String) (rp : Option Nat) (vars rest : List Value) (frs : List Frame)
       (entries : List (String × Value)) (k : String) (v : Value),
       step ⟨[.setCollectionItemByKey, .stackPush (.string k), .getCollectionItemByKey],
           fns, ⟨nm, rp, vars, .string k :: v :: .dictionary entries :: rest⟩ :: frs, gl, 0⟩
         = .ok (.next ⟨[.setCollectionItemByKey, .stackPush (.string k), .getCollectionItemByKey],
           fns, ⟨nm, rp, vars, .dictionary (insertEntry k v entries) :: rest⟩ :: frs, gl, 1⟩) ∧
       step ⟨[.setCollectionItemByKey, .stackPush (.string k), .getCollectionItemByKey],
           fns, ⟨nm, rp, vars, .dictionary (insertEntry k v entries) :: rest⟩ :: frs, gl, 1⟩
         = .ok (.next ⟨[.setCollectionItemByKey, .stackPush (.string k), .getCollectionItemByKey],
           fns, ⟨nm, rp, vars, .string k :: .dictionary (insertEntry k v entries) :: rest⟩ :: frs, gl, 2⟩) ∧
       step ⟨[.setCollectionItemByKey, .stackPush (.string k), .getCollectionItemByKey],
           fns, ⟨nm, rp, vars, .string k :: .dictionary (insertEntry k v entries) :: rest⟩ :: frs, gl, 2⟩
         = .ok (.next ⟨[.setCollectionItemByKey, .stackPush (.string k), .getCollectionItemByKey],
           fns, ⟨nm, rp, vars, v :: rest⟩ :: frs, gl, 3⟩)) := by
  constructor
  · intro fns gl nm rp vars rest frs items i v hlen hsmall
    have hset : i32asUsize (i : Int) = i := i32asUsize_ofNat i hsmall
    have hlen' : i < (items.set i v).length := by simpa using hlen
    refine ⟨?_, rfl, ?_⟩
    · unfold step
      simp [Frame.popValueFromStack, Frame.pushValueToStack, bind, Except.bind, hset, hlen]
    · unfold step
      simp [Frame.popValueFromStack, Frame.pushValueToStack, bind, Except.bind, hset,
        List.getElem?_eq_getElem hlen', List.getElem_set_self hlen']
  · intro fns gl nm rp vars rest frs entries k v
    refine ⟨?_, rfl, ?_⟩
    · unfold step
      simp [Frame.popValueFromStack, Frame.pushValueToStack, bind, Except.bind]
    · unfold step
      simp [Frame.popValueFromStack, Frame.pushValueToStack, bind, Except.bind,
        lookupEntry_insertEntry]

/-- Witness for **C8** (amended): the array round-trip at index `1` of
`[10, 20]` with new value `99`, and the dictionary round-trip at key `"a"`. -/
theorem indexSet_indexGet_roundtrip_witness :
    ((1 < ([Value.integer 10, .integer 20]).length) ∧
      step ⟨[.setCollectionItemByKey, .stackPush (.integer 1), .getCollectionItemByKey],
          [], [⟨"m", none, [], [.integer 1, .integer 99, .array [.integer 10, .integer 20]]⟩], [], 0⟩
        = .ok (.next ⟨[.setCollectionItemByKey, .stackPush (.integer 1), .getCollectionItemByKey],
          [], [⟨"m", none, [], [.array [.integer 10, .integer 99]]⟩], [], 1⟩) ∧
      step ⟨[.setCollectionItemByKey, .stackPush (.integer 1), .getCollectionItemByKey],
          [], [⟨"m", none, [], [.array [.integer 10, .integer 99]]⟩], [], 1⟩
        = .ok (.next ⟨[.setCollectionItemByKey, .stackPush (.integer 1), .getCollectionItemByKey],
          [], [⟨"m", none, [], [.integer 1, .array [.integer 10, .integer 99]]⟩], [], 2⟩) ∧
      step ⟨[.setCollectionItemByKey, .stackPush (.integer 1), .getCollectionItemByKey],
          [], [⟨"m", none, [], [.integer 1, .array [.integer 10, .integer 99]]⟩], [], 2⟩
        = .ok (.next ⟨[.setCollectionItemByKey, .stackPush (.integer 1), .getCollectionItemByKey],
          [], [⟨"m", none, [], [.integer 99]⟩], [], 3⟩)) ∧
    (step ⟨[.setCollectionItemByKey, .stackPush (.string "a"), .getCollectionItemByKey],
          [], [⟨"m", none, [], [.string "a", .integer 7, .dictionary []]⟩], [], 0⟩
        = .ok (.next ⟨[.setCollectionItemByKey, .stackPush (.string "a"), .getCollectionItemByKey],
          [], [⟨"m", none, [], [.dictionary [("a", .integer 7)]]⟩], [], 1⟩) ∧
      step ⟨[.setCollectionItemByKey, .stackPush (.string "a"), .getCollectionItemByKey],
          [], [⟨"m", none, [], [.dictionary [("a", .integer 7)]]⟩], [], 1⟩
        = .ok (.next ⟨[.setCollectionItemByKey, .stackPush (.string "a"), .getCollectionItemByKey],
          [], [⟨"m", none, [], [.string "a", .dictionary [("a", .integer 7)]]⟩], [], 2⟩) ∧
      step ⟨[.setCollectionItemByKey, .stackPush (.string "a"), .getCollectionItemByKey],
          [], [⟨"m", none, [], [.string "a", .dictionary [("a", .integer 7)]]⟩], [], 2⟩
        = .ok (.next ⟨[.setCollectionItemByKey, .stackPush (.string "a"), .getCollectionItemByKey],
          [], [⟨"m", none, [], [.integer 7]⟩], [], 3⟩)) := by
  obtain ⟨h1, h2⟩ := indexSet_indexGet_roundtrip
  exact ⟨⟨by simp,
      h1 [] [] "m" none [] [] [] [.integer 10, .integer 20] 1 (.integer 99)
        (by simp) (by norm_num)⟩,
    h2 [] [] "m" none [] [] [] [] "a" (.integer 7)⟩

/-- **C6.**  Back-patched jumps land exactly on the instruction following
the guarded region.  For `if`/`else`: the final code is
`cond ++ [JumpIfFalse (|then| + 2)] ++ then ++ [JumpForward (|else| + 1)] ++ else`,
so the patched `JumpIfFalse` (at index `p = |entry| + |cond|`, relative
semantics `ip += Δ`) lands on `p + |then| + 2` — the first instruction of
the else branch, which is the join point when there is no else
(`elseCode = []`); the patched forward jump lands on the join point, the
index just past the construct (`fEnd.instructions.length`).  For `while`:
the final code is
`cond ++ [JumpIfFalse (|body| + 2)] ++ body ++ [JumpBackward (|cond| + 1 + |body|)]`,
so the backward jump (semantics `ip -= Δ`) lands on the first instruction
of the condition, and the patched `JumpIfFalse` lands on
`fEnd.instructions.length`, just past the backward jump.  The `as i32`
cast in the back-patch is the identity for any region smaller than `2^31`
instructions. -/
theorem backpatched_jumps_land_past_guarded_region :
    (∀ (expr : Token) (thenBody : List Token) (elseBody : Option (List Token))
       (f fEnd : Function),
       compileIfelse expr thenBody elseBody f = .ok fEnd →
       ∃ (f1 f2 : Function) (condCode thenCode elseCode : List Instruction),
         compileExpression expr f = .ok f1 ∧
         f1.instructions = f.instructions ++ condCode ∧
         compileStatements thenBody (pushIns f1 (.halt "no where to jump to")) = .ok f2 ∧
         f2.instructions = f1.instructions ++ [.halt "no where to jump to"] ++ thenCode ∧
         (elseBody = none → elseCode = []) ∧
         fEnd.instructions =
           f.instructions ++ condCode
             ++ [.jumpIfFalse (i32ofNat (thenCode.length + 2))] ++ thenCode
             ++ [.jumpForward (elseCode.length + 1)] ++ elseCode ∧
         (thenCode.length + 2 < 2 ^ 31 →
           i32ofNat (thenCode.length + 2) = ((thenCode.length + 2 : Nat) : Int)) ∧
         fEnd.instructions.length
           = f.instructions.length + condCode.length + 1 + thenCode.length + 1
             + elseCode.length) ∧
    (∀ (expr : Token) (block : List Token) (f fEnd : Function),
       compileWhileloop expr block f = .ok fEnd →
       ∃ (f1 f2 : Function) (condCode bodyCode : List Instruction),
         compileExpression expr f = .ok f1 ∧
         f1.instructions = f.instructions ++ condCode ∧
         compileStatements block (pushIns f1 (.halt "no jump-not-true provided")) = .ok f2 ∧
         f2.instructions = f1.instructions ++ [.halt "no jump-not-true provided"] ++ bodyCode ∧
         fEnd.instructions =
           f.instructions ++ condCode
             ++ [.jumpIfFalse (i32ofNat (bodyCode.length + 2))] ++ bodyCode
             ++ [.jumpBackward (condCode.length + 1 + bodyCode.length)] ∧
         (bodyCode.length + 2 < 2 ^ 31 →
           i32ofNat (bodyCode.length + 2) = ((bodyCode.length + 2 : Nat) : Int)) ∧
         fEnd.instructions.length
           = f.instructions.length + condCode.length + 1 + bodyCode.length + 1) := by
  constructor
  · intro expr thenBody elseBody f fEnd h
    obtain ⟨f1, f2, condCode, thenCode, elseCode, hExpr, hc, hThen, ht, hNone, hShape⟩ :=
      compileIfelse_backpatch_shape expr thenBody elseBody f fEnd h
    refine ⟨f1, f2, condCode, thenCode, elseCode, hExpr, hc, hThen, ht, hNone, hShape,
      fun hs => i32ofNat_small _ hs, ?_⟩
    simp [hShape]
    omega
  · intro expr block f fEnd h
    obtain ⟨f1, f2, condCode, bodyCode, hExpr, hc, hBody, ht, hShape⟩ :=
      compileWhileloop_backpatch_shape expr block f fEnd h
    refine ⟨f1, f2, condCode, bodyCode, hExpr, hc, hBody, ht, hShape,
      fun hs => i32ofNat_small _ hs, ?_⟩
    simp [hShape]
    omega

/-- Witness for **C6**: the statement `if true { print 1; } else { print 2; }`
compiles to `[Push true, JumpIfFalse 4, Push 1, Print, JumpForward 3, Push 2,
Print]` and `while true { print 1; }` to `[Push true, JumpIfFalse 4, Push 1,
Print, JumpBackward 4]`, and the claim theorem applies to both runs. -/
theorem backpatched_jumps_land_past_guarded_region_witness :
    (compileIfelse (.bool true) [.print (.integer 1)] (some [.print (.integer 2)])
        (Function.mk "main" "Test" [] [] [] [] [] [] [])
      = .ok (Function.mk "main" "Test" [] []
          [.stackPush (.bool true), .jumpIfFalse 4, .stackPush (.integer 1), .print,
           .jumpForward 3, .stackPush (.integer 2), .print] [] [] [] [])) ∧
    (∃ (f1 f2 : Function) (condCode thenCode elseCode : List Instruction),
       compileExpression (.bool true) (Function.mk "main" "Test" [] [] [] [] [] [] [])
         = .ok f1 ∧
       f1.instructions
         = (Function.mk "main" "Test" [] [] [] [] [] [] [] : Function).instructions
           ++ condCode ∧
       compileStatements [.print (.integer 1)]
           (pushIns f1 (.halt "no where to jump to")) = .ok f2 ∧
       f2.instructions = f1.instructions ++ [.halt "no where to jump to"] ++ thenCode ∧
       ((some [Token.print (.integer 2)] : Option (List Token)) = none → elseCode = []) ∧
       (Function.mk "main" "Test" [] []
          [.stackPush (.bool true), .jumpIfFalse 4, .stackPush (.integer 1), .print,
           .jumpForward 3, .stackPush (.integer 2), .print] [] [] [] []
         : Function).instructions =
         (Function.mk "main" "Test" [] [] [] [] [] [] [] : Function).instructions ++ condCode
           ++ [.jumpIfFalse (i32ofNat (thenCode.length + 2))] ++ thenCode
           ++ [.jumpForward (elseCode.length + 1)] ++ elseCode ∧
       (thenCode.length + 2 < 2 ^ 31 →
         i32ofNat (thenCode.length + 2) = ((thenCode.length + 2 : Nat) : Int)) ∧
       (Function.mk "main" "Test" [] []
          [.stackPush (.bool true), .jumpIfFalse 4, .stackPush (.integer 1), .print,
           .jumpForward 3, .stackPush (.integer 2), .print] [] [] [] []
         : Function).instructions.length
         = (Function.mk "main" "Test" [] [] [] [] [] [] [] : Function).instructions.length
           + condCode.length + 1 + thenCode.length + 1 + elseCode.length) ∧
    (compileWhileloop (.bool true) [.print (.integer 1)]
        (Function.mk "main" "Test" [] [] [] [] [] [] [])
      = .ok (Function.mk "main" "Test" [] []
          [.stackPush (.bool true), .jumpIfFalse 4, .stackPush (.integer 1), .print,
           .jumpBackward 4] [] [] [] [])) ∧
    (∃ (f1 f2 : Function) (condCode bodyCode : List Instruction),
       compileExpression (.bool true) (Function.mk "main" "Test" [] [] [] [] [] [] [])
         = .ok f1 ∧
       f1.instructions
         = (Function.mk "main" "Test" [] [] [] [] [] [] [] : Function).instructions
           ++ condCode ∧
       compileStatements [.print (.integer 1)]
           (pushIns f1 (.halt "no jump-not-true provided")) = .ok f2 ∧
       f2.instructions = f1.instructions ++ [.halt "no jump-not-true provided"] ++ bodyCode ∧
       (Function.mk "main" "Test" [] []
          [.stackPush (.bool true), .jumpIfFalse 4, .stackPush (.integer 1), .print,
           .jumpBackward 4] [] [] [] [] : Function).instructions =
         (Function.mk "main" "Test" [] [] [] [] [] [] [] : Function).instructions ++ condCode
           ++ [.jumpIfFalse (i32ofNat (bodyCode.length + 2))] ++ bodyCode
           ++ [.jumpBackward (condCode.length + 1 + bodyCode.length)] ∧
       (bodyCode.length + 2 < 2 ^ 31 →
         i32ofNat (bodyCode.length + 2) = ((bodyCode.length + 2 : Nat) : Int)) ∧
       (Function.mk "main" "Test" [] []
          [.stackPush (.bool true), .jumpIfFalse 4, .stackPush (.integer 1), .print,
           .jumpBackward 4] [] [] [] [] : Function).instructions.length
         = (Function.mk "main" "Test" [] [] [] [] [] [] [] : Function).instructions.length
           + condCode.length + 1 + bodyCode.length + 1) := by
  have h1 : compileIfelse (.bool true) [.print (.integer 1)] (some [.print (.integer 2)])
      (Function.mk "main" "Test" [] [] [] [] [] [] [])
      = .ok (Function.mk "main" "Test" [] []
          [.stackPush (.bool true), .jumpIfFalse 4, .stackPush (.integer 1), .print,
           .jumpForward 3, .stackPush (.integer 2), .print] [] [] [] []) := by
    have e1 : compileExpression (.bool true) (Function.mk "main" "Test" [] [] [] [] [] [] [])
        = .ok (pushIns (Function.mk "main" "Test" [] [] [] [] [] [] [])
            (.stackPush (.bool true))) := by
      simp only [compileExpression]
    have e2 : compileStatements [.print (.integer 1)]
        (Function.mk "main" "Test" [] []
          [.stackPush (.bool true), .halt "no where to jump to"] [] [] [] [])
        = .ok (Function.mk "main" "Test" [] []
          [.stackPush (.bool true), .halt "no where to jump to",
           .stackPush (.integer 1), .print] [] [] [] []) := by
      simp only [compileStatements, compileStatement, compilePrint, compileExpression,
        bind, Except.bind, pushIns]
      norm_num
    have e3 : compileStatements [.print (.integer 2)]
        (Function.mk "main" "Test" [] []
          [.stackPush (.bool true), .jumpIfFalse 4, .stackPush (.integer 1), .print,
           .halt "can not jump tot end"] [] [] [] [])
        = .ok (Function.mk "main" "Test" [] []
          [.stackPush (.bool true), .jumpIfFalse 4, .stackPush (.integer 1), .print,
           .halt "can not jump tot end", .stackPush (.integer 2), .print] [] [] [] []) := by
      simp only [compileStatements, compileStatement, compilePrint, compileExpression,
        bind, Except.bind, pushIns]
      norm_num
    rw [compileIfelse]
    rw [e1]
    simp only [bind, Except.bind, pushIns]
    norm_num [e2, setIns, i32ofNat]
    rw [e3]
    norm_num [setIns]
  have h2 : compileWhileloop (.bool true) [.print (.integer 1)]
      (Function.mk "main" "Test" [] [] [] [] [] [] [])
      = .ok (Function.mk "main" "Test" [] []
          [.stackPush (.bool true), .jumpIfFalse 4, .stackPush (.integer 1), .print,
           .jumpBackward 4] [] [] [] []) := by
    have e1 : compileExpression (.bool true) (Function.mk "main" "Test" [] [] [] [] [] [] [])
        = .ok (pushIns (Function.mk "main" "Test" [] [] [] [] [] [] [])
            (.stackPush (.bool true))) := by
      simp only [compileExpression]
    have e2 : compileStatements [.print (.integer 1)]
        (Function.mk "main" "Test" [] []
          [.stackPush (.bool true), .halt "no jump-not-true provided"] [] [] [] [])
        = .ok (Function.mk "main" "Test" [] []
          [.stackPush (.bool true), .halt "no jump-not-true provided",
           .stackPush (.integer 1), .print] [] [] [] []) := by
      simp only [compileStatements, compileStatement, compilePrint, compileExpression,
        bind, Except.bind, pushIns]
      norm_num
    rw [compileWhileloop]
    rw [e1]
    simp only [bind, Except.bind, pushIns]
    norm_num [e2, setIns, i32ofNat]
  exact ⟨h1, backpatched_jumps_land_past_guarded_region.1 _ _ _ _ _ h1, h2,
    backpatched_jumps_land_past_guarded_region.2 _ _ _ _ h2⟩

end TinyScript
